import Mathlib

/-!
Verification of the sliding-window priority-fee aggregation and percentile
engine of atlas-priority-fee-estimator.

Shallow embedding notes:
* `u64` slots are modelled as `Nat`; the constant `U64MAX` stands for
  `u64::MAX`, the initial value of the slot cache's `last_seen_slot` atomic.
* `Pubkey` (an opaque 32-byte id used only for equality and hashing) is
  modelled as `Nat`.
* `f64` fee values are modelled as `ℚ`; a possibly-NaN `f64` statistic is
  modelled as `Option ℚ` with `none` for NaN.  Fees enter the tracker as
  `u64` (`priority_fee as f64`), so every stored sample is a cast natural.
* `DashMap` / `DashSet` / `HashMap` are modelled as association lists; the
  sequential semantics of each operation (`entry().and_modify().or_insert()`,
  `insert`, `remove`, `get`) is translated operation by operation.
* `statrs::statistics::Data::percentile` is an external dependency whose
  source is not part of the repository; it is modelled from the spec
  (see `percentile` below).  Likewise `queues::CircularBuffer` is modelled
  from the spec's SlotWindow contract (append; drop-head on overflow).
* `mean`, `std_dev` and `skewness` of the detailed query are external
  floating-point statistics no claim mentions; the embedding keeps the
  `count` field and the percentile estimates of each bucket.
-/

namespace AtlasFee

/-- Slots are u64 slot numbers (`solana_sdk::slot_history::Slot`). -/
abbrev Slot := Nat

/-- Accounts (`solana_sdk::pubkey::Pubkey`) are opaque ids with equality. -/
abbrev Account := Nat

/-- The value `u64::MAX`, to which `SlotCache::new` initializes
`last_seen_slot`. -/
def U64MAX : Nat := 2 ^ 64 - 1

/-- model.rs `Fees`: two ordered sequences of fee values. -/
structure Fees where
  non_vote_fees : List ℚ
  vote_fees : List ℚ
deriving DecidableEq

/-- model.rs `Fees::new`: a fresh collection holding one fee. -/
def Fees.new (fee : ℚ) (is_vote : Bool) : Fees :=
  if is_vote then { vote_fees := [fee], non_vote_fees := [] }
  else { vote_fees := [], non_vote_fees := [fee] }

/-- model.rs `Fees::add_fee`: push a fee onto the matching sub-sequence. -/
def Fees.add_fee (f : Fees) (fee : ℚ) (is_vote : Bool) : Fees :=
  if is_vote then { f with vote_fees := f.vote_fees ++ [fee] }
  else { f with non_vote_fees := f.non_vote_fees ++ [fee] }

/-- DashMap `entry(k).and_modify(f).or_insert(dflt)` on an association list. -/
def upsert (m : List (Account × Fees)) (a : Account) (f : Fees → Fees)
    (dflt : Fees) : List (Account × Fees) :=
  match m with
  | [] => [(a, dflt)]
  | (b, v) :: rest =>
      if b = a then (b, f v) :: rest else (b, v) :: upsert rest a f dflt

/-- DashMap `insert` (overwrite if present) on an association list. -/
def setFees (m : List (Account × Fees)) (a : Account) (v : Fees) :
    List (Account × Fees) :=
  upsert m a (fun _ => v) v

/-- model.rs `SlotPriorityFees`: per-slot global fees and per-account fees. -/
structure SlotPriorityFees where
  slot : Slot
  fees : Fees
  account_fees : List (Account × Fees)
deriving DecidableEq

/-- model.rs `SlotPriorityFees::new`: `Fees::new` for the globals, then one
`insert` of a clone of those fees per listed account (an `insert`
overwrites, so a duplicated account keeps a single entry). -/
def SlotPriorityFees.new (slot : Slot) (accounts : List Account)
    (priority_fee : Nat) (is_vote : Bool) : SlotPriorityFees :=
  let fees := Fees.new (priority_fee : ℚ) is_vote
  { slot := slot
    fees := fees
    account_fees := accounts.foldl (fun m a => setFees m a fees) [] }

/-- model.rs `PriorityFeesBySlot = DashMap<Slot, SlotPriorityFees>`. -/
abbrev PriorityFeesBySlot := List (Slot × SlotPriorityFees)

/-- DashMap `remove` of a slot key. -/
def ledgerRemove (l : PriorityFeesBySlot) (s : Slot) : PriorityFeesBySlot :=
  l.filter (fun e => e.1 ≠ s)

/-- Replace the value stored at a slot key (in-place `Entry::Occupied` write). -/
def ledgerSet (l : PriorityFeesBySlot) (s : Slot) (v : SlotPriorityFees) :
    PriorityFeesBySlot :=
  l.map (fun e => if e.1 = s then (s, v) else e)

/-- slot_cache.rs `SlotCache`: the FIFO queue (head = oldest), the slot set,
and the relaxed-atomic `last_seen_slot` fast-path hint. -/
structure SlotCache where
  capacity : Nat
  slot_queue : List Slot
  slot_set : List Slot
  last_seen_slot : Nat
deriving DecidableEq

/-- slot_cache.rs `SlotCache::new`: empty queue and set,
`last_seen_slot = u64::MAX`. -/
def SlotCache.new (slot_cache_length : Nat) : SlotCache :=
  { capacity := slot_cache_length
    slot_queue := []
    slot_set := []
    last_seen_slot := U64MAX }

/-- Modelled from the spec: `queues::CircularBuffer::add` of the external
queues crate, per the SlotWindow contract of the spec — append the slot to
the FIFO order; if that exceeds the capacity, drop-head yields the oldest
slot.  (With capacity 0 the appended slot is itself dropped at once.) -/
def cbAdd (cap : Nat) (q : List Slot) (s : Slot) : List Slot × Option Slot :=
  if q.length < cap then (q ++ [s], none)
  else
    match q ++ [s] with
    | [] => ([], none)
    | x :: xs => (xs, some x)

/-- slot_cache.rs `SlotCache::push_pop`, sequential semantics: the
`last_seen_slot` fast path, the membership check (the double-checked
re-check inside the write lock collapses sequentially), then the queue add
with set maintenance. -/
def SlotCache.push_pop (c : SlotCache) (slot : Slot) :
    SlotCache × Option Slot :=
  if c.last_seen_slot = slot then (c, none)
  else if slot ∈ c.slot_set then ({ c with last_seen_slot := slot }, none)
  else
    let qe := cbAdd c.capacity c.slot_queue slot
    let set1 := match qe.2 with
      | some oldest => c.slot_set.erase oldest
      | none => c.slot_set
    let set2 := if slot ∈ set1 then set1 else set1 ++ [slot]
    ({ c with slot_queue := qe.1, slot_set := set2, last_seen_slot := slot },
      qe.2)

/-- slot_cache.rs `SlotCache::len`: the size of the slot set. -/
def SlotCache.len (c : SlotCache) : Nat := c.slot_set.length

/-- slot_cache.rs `SlotCache::copy_slots`: the slots currently in the set. -/
def SlotCache.copy_slots (c : SlotCache) : List Slot := c.slot_set

/-- tracker.rs `PriorityFeeTracker`. -/
structure PriorityFeeTracker where
  priority_fees : PriorityFeesBySlot
  slot_cache : SlotCache
deriving DecidableEq

/-- tracker.rs `PriorityFeeTracker::new`. -/
def PriorityFeeTracker.new (slot_cache_length : Nat) : PriorityFeeTracker :=
  { priority_fees := [], slot_cache := SlotCache.new slot_cache_length }

/-- The `Entry::Occupied` body of `push_priority_fee_for_txn`: append the
fee to the record's global fees; per listed account (each occurrence),
`entry(account).and_modify(add_fee).or_insert(Fees::new)`. -/
def SlotPriorityFees.addTxn (slot_fees : SlotPriorityFees)
    (accounts : List Account) (priority_fee : Nat) (is_vote : Bool) :
    SlotPriorityFees :=
  { slot_fees with
    fees := slot_fees.fees.add_fee (priority_fee : ℚ) is_vote
    account_fees := accounts.foldl
      (fun m a =>
        upsert m a (fun f => f.add_fee (priority_fee : ℚ) is_vote)
          (Fees.new (priority_fee : ℚ) is_vote))
      slot_fees.account_fees }

/-- tracker.rs `PriorityFeeTracker::push_priority_fee_for_txn`:
`push_pop` the slot (removing an evicted slot's record), then update or
insert the slot's record. -/
def PriorityFeeTracker.push_priority_fee_for_txn (t : PriorityFeeTracker)
    (slot : Slot) (accounts : List Account) (priority_fee : Nat)
    (is_vote : Bool) : PriorityFeeTracker :=
  let ce := t.slot_cache.push_pop slot
  let fees0 := match ce.2 with
    | some oldest_slot => ledgerRemove t.priority_fees oldest_slot
    | none => t.priority_fees
  let fees1 := match fees0.lookup slot with
    | some slot_fees =>
        ledgerSet fees0 slot (slot_fees.addTxn accounts priority_fee is_vote)
    | none => fees0 ++ [(slot, SlotPriorityFees.new slot accounts priority_fee is_vote)]
  { priority_fees := fees1, slot_cache := ce.1 }

/-- One ingested transaction event, as `push_priority_fee_for_txn`
receives it. -/
structure Txn where
  slot : Slot
  accounts : List Account
  fee : Nat
  is_vote : Bool
deriving DecidableEq

/-- Push one transaction event. -/
def pushTxn (t : PriorityFeeTracker) (τ : Txn) : PriorityFeeTracker :=
  t.push_priority_fee_for_txn τ.slot τ.accounts τ.fee τ.is_vote

/-- A tracker after a finite sequence of pushes from construction. -/
def runTracker (cap : Nat) (ts : List Txn) : PriorityFeeTracker :=
  ts.foldl pushTxn (PriorityFeeTracker.new cap)

/-! ### calculation.rs -/

/-- model.rs `DataType`: the bucket keys of the aggregation result. -/
inductive DataType where
  | global
  | allAccounts
  | account (a : Account)
deriving DecidableEq

/-- calculation.rs `DataStats`: the per-bucket sample vectors.  The Rust
`HashMap` is modelled as an association list; its iteration order is
arbitrary, which estimate_max_values_perm shows to be harmless. -/
abbrev DataStats := List (DataType × List ℚ)

/-- calculation.rs `Calculations`: the two algorithms with their options. -/
inductive Calculations where
  | calculation1 (accounts : List Account) (include_vote : Bool)
      (include_empty_slots : Bool) (lookback_period : Option Nat)
  | calculation2 (accounts : List Account) (include_vote : Bool)
      (include_empty_slots : Bool) (lookback_period : Option Nat)

/-- calculation.rs `calculate_lookback_size`. -/
def calculate_lookback_size (pref_num_slots : Option Nat)
    (max_available_slots : Nat) : Nat :=
  min max_available_slots (pref_num_slots.getD max_available_slots)

/-- The slot list both algorithms build: collect the ledger keys, sort,
reverse (newest slot first). -/
def slotsDesc (priority_fees : PriorityFeesBySlot) : List Slot :=
  (List.insertionSort (· ≤ ·) (priority_fees.map Prod.fst)).reverse

/-- HashMap `entry(k).or_default()` followed by an in-place mutation of the
entry's vector, on an association list. -/
def entryModify (m : DataStats) (k : DataType) (f : List ℚ → List ℚ) :
    DataStats :=
  match m with
  | [] => [(k, f [])]
  | (k', v) :: rest =>
      if k' = k then (k', f v) :: rest else (k', v) :: entryModify rest k f

/-- The fees a slot record contributes to a bucket: vote fees first when
`include_vote`, then the non-vote fees (both `extend_from_slice`). -/
def contrib (include_vote : Bool) (f : Fees) : List ℚ :=
  (if include_vote then f.vote_fees else []) ++ f.non_vote_fees

/-- calculation.rs `v1::get_priority_fee_estimates` body for one resolvable
slot record: extend the global vector; if `accounts` is non-empty, extend
the combined account vector per account with data, and inject a single
`0.0` when no account had data and `include_empty_slots` is set. -/
def v1_collect (accounts : List Account) (include_vote : Bool)
    (include_empty_slots : Bool) (sf : SlotPriorityFees)
    (acc : List ℚ × List ℚ) : List ℚ × List ℚ :=
  let global_fees := acc.1 ++ contrib include_vote sf.fees
  if accounts.isEmpty then (global_fees, acc.2)
  else
    let fh := accounts.foldl
      (fun (p : List ℚ × Bool) account =>
        match sf.account_fees.lookup account with
        | some account_priority_fees =>
            (p.1 ++ contrib include_vote account_priority_fees, true)
        | none => p)
      (acc.2, false)
    if ¬fh.2 ∧ include_empty_slots then (global_fees, fh.1 ++ [0])
    else (global_fees, fh.1)

/-- calculation.rs `v1::get_priority_fee_estimates`: iterate the newest
`lookback` slots, then insert the `Global` and `AllAccounts` buckets. -/
def v1_get_priority_fee_estimates (accounts : List Account)
    (include_vote : Bool) (include_empty_slots : Bool)
    (lookback_period : Option Nat) (priority_fees : PriorityFeesBySlot) :
    DataStats :=
  let slots_vec := slotsDesc priority_fees
  let lookback := calculate_lookback_size lookback_period slots_vec.length
  let ga := (slots_vec.take lookback).foldl
    (fun acc slot =>
      match priority_fees.lookup slot with
      | some slot_priority_fees =>
          v1_collect accounts include_vote include_empty_slots
            slot_priority_fees acc
      | none => acc)
    ([], [])
  [(DataType.global, ga.1), (DataType.allAccounts, ga.2)]

/-- calculation.rs `v2::get_priority_fee_estimates` body for one resolvable
slot record: `entry(Global).or_default()` then extend; per requested
account, `entry(Account(a)).or_default()` then either extend with that
account's fees or push a `0.0` when `include_empty_slots` is set. -/
def v2_collect (accounts : List Account) (include_vote : Bool)
    (include_empty_slots : Bool) (sf : SlotPriorityFees) (data : DataStats) :
    DataStats :=
  let data := entryModify data DataType.global
    (fun v => v ++ contrib include_vote sf.fees)
  accounts.foldl
    (fun data account =>
      entryModify data (DataType.account account)
        (fun v =>
          match sf.account_fees.lookup account with
          | some account_priority_fees =>
              v ++ contrib include_vote account_priority_fees
          | none => if include_empty_slots then v ++ [0] else v))
    data

/-- calculation.rs `v2::get_priority_fee_estimates`: iterate the newest
`lookback` slots, accumulating per-bucket vectors. -/
def v2_get_priority_fee_estimates (accounts : List Account)
    (include_vote : Bool) (include_empty_slots : Bool)
    (lookback_period : Option Nat) (priority_fees : PriorityFeesBySlot) :
    DataStats :=
  let slots_vec := slotsDesc priority_fees
  let lookback := calculate_lookback_size lookback_period slots_vec.length
  (slots_vec.take lookback).foldl
    (fun data slot =>
      match priority_fees.lookup slot with
      | some slot_priority_fees =>
          v2_collect accounts include_vote include_empty_slots
            slot_priority_fees data
      | none => data)
    []

/-- calculation.rs `Calculations::get_priority_fee_estimates` dispatcher.
The Rust function returns `anyhow::Result`, but both algorithms are
infallible, so the embedding is total. -/
def Calculations.get_priority_fee_estimates (c : Calculations)
    (priority_fees : PriorityFeesBySlot) : DataStats :=
  match c with
  | .calculation1 accounts include_vote include_empty_slots lookback_period =>
      v1_get_priority_fee_estimates accounts include_vote include_empty_slots
        lookback_period priority_fees
  | .calculation2 accounts include_vote include_empty_slots lookback_period =>
      v2_get_priority_fee_estimates accounts include_vote include_empty_slots
        lookback_period priority_fees

/-! ### The percentile reducer -/

/-- The sorted copy of a sample vector (statrs selects order statistics of
the underlying data; sorting realizes them all). -/
def sortedOf (xs : List ℚ) : List ℚ := List.insertionSort (· ≤ ·) xs

/-- The interpolation index of the `p`-th percentile on a sample of size
`n`: `h = (n - 1) * p / 100`. -/
def hIndex (n p : Nat) : ℚ := ((n - 1 : Nat) : ℚ) * (p : ℚ) / 100

/-- Linear interpolation between the closest ranks of a sorted sample:
`s[⌊h⌋] + (h - ⌊h⌋) * (s[⌈h⌉] - s[⌊h⌋])`. -/
def interpAt (s : List ℚ) (h : ℚ) : ℚ :=
  s.getD (Int.toNat ⌊h⌋) 0
    + (h - (⌊h⌋ : ℚ)) * (s.getD (Int.toNat ⌈h⌉) 0 - s.getD (Int.toNat ⌊h⌋) 0)

/-- Modelled from the spec: `Data::percentile(p)` of the external statrs
crate, whose source is not part of the repository — the spec's §4.5
percentile definition (type-7 quantile by linear interpolation between
closest ranks over the sorted sample; NaN, here `none`, on the empty
sample). -/
def percentile (xs : List ℚ) (p : Nat) : Option ℚ :=
  if xs.isEmpty then none
  else some (interpAt (sortedOf xs) (hIndex xs.length p))

/-- model.rs `MicroLamportPriorityFeeEstimates` (`f64` fields as
`Option ℚ`, `none` for NaN). -/
structure MicroLamportPriorityFeeEstimates where
  min : Option ℚ
  low : Option ℚ
  medium : Option ℚ
  high : Option ℚ
  very_high : Option ℚ
  unsafe_max : Option ℚ
deriving DecidableEq

/-- The derived `Default` of `MicroLamportPriorityFeeEstimates`: every
`f64` field defaults to `0.0` (a real value, not NaN). -/
def MicroLamportPriorityFeeEstimates.default :
    MicroLamportPriorityFeeEstimates :=
  { min := some 0, low := some 0, medium := some 0, high := some 0
    very_high := some 0, unsafe_max := some 0 }

/-- The f64 comparison `v > acc` under the NaN-as-`none` model: any
comparison with NaN is false. -/
def nanGt (v acc : Option ℚ) : Bool :=
  match v, acc with
  | some b, some a => a < b
  | _, _ => false

/-- One accumulator update of tracker.rs `estimate_max_values`:
`if v > acc || acc.is_nan() { acc = v }`. -/
def maxStep (acc v : Option ℚ) : Option ℚ :=
  if nanGt v acc || acc.isNone then v else acc

/-- tracker.rs `estimate_max_values`: fold every bucket's six percentile
values into the accumulator, level by level. -/
def estimate_max_values (fees : DataStats)
    (estimates : MicroLamportPriorityFeeEstimates) :
    MicroLamportPriorityFeeEstimates :=
  fees.foldl
    (fun est e =>
      { min := maxStep est.min (percentile e.2 0)
        low := maxStep est.low (percentile e.2 25)
        medium := maxStep est.medium (percentile e.2 50)
        high := maxStep est.high (percentile e.2 75)
        very_high := maxStep est.very_high (percentile e.2 95)
        unsafe_max := maxStep est.unsafe_max (percentile e.2 100) })
    estimates

/-- tracker.rs `calculate_priority_fee`: aggregate, then fold with the
default (all-zero) initial estimates. -/
def PriorityFeeTracker.calculate_priority_fee (t : PriorityFeeTracker)
    (calculation : Calculations) : MicroLamportPriorityFeeEstimates :=
  estimate_max_values (calculation.get_priority_fee_estimates t.priority_fees)
    MicroLamportPriorityFeeEstimates.default

/-- model.rs `MicroLamportPriorityFeeDetails`, restricted to the fields the
claims mention (`mean`, `stdev` and `skew` are external floating-point
statistics of statrs). -/
structure MicroLamportPriorityFeeDetails where
  estimates : MicroLamportPriorityFeeEstimates
  count : Nat
deriving DecidableEq

/-- The per-bucket detail entry tracker.rs `calculate_priority_fee_details`
builds from one bucket's sample vector. -/
def detailsFor (fees : List ℚ) : MicroLamportPriorityFeeDetails :=
  { estimates :=
      { min := percentile fees 0
        low := percentile fees 25
        medium := percentile fees 50
        high := percentile fees 75
        very_high := percentile fees 95
        unsafe_max := percentile fees 100 }
    count := fees.length }

/-- tracker.rs `calculate_priority_fee_details`: the per-bucket detail map
(keyed here by `DataType`; the Rust key is its display string) and the same
`estimate_max_values` fold. -/
def PriorityFeeTracker.calculate_priority_fee_details (t : PriorityFeeTracker)
    (calculation : Calculations) :
    MicroLamportPriorityFeeEstimates
      × List (DataType × MicroLamportPriorityFeeDetails) :=
  let data := calculation.get_priority_fee_estimates t.priority_fees
  let res := data.map (fun e => (e.1, detailsFor e.2))
  (estimate_max_values data MicroLamportPriorityFeeEstimates.default, res)

/-! ### Shared helper lemmas -/

theorem lookup_isSome_iff {α β : Type} [BEq α] [LawfulBEq α]
    (l : List (α × β)) (k : α) :
    (l.lookup k).isSome ↔ k ∈ l.map Prod.fst := by
  induction l with
  | nil => simp [List.lookup]
  | cons e rest ih =>
      rcases e with ⟨k', v⟩
      by_cases hk : k = k'
      · subst hk
        simp [List.lookup]
      · have hbeq : (k == k') = false := by simpa using hk
        simp [List.lookup, hbeq, ih, hk]

theorem lookup_mem {α β : Type} [BEq α] [LawfulBEq α]
    {l : List (α × β)} {k : α} {v : β} (h : l.lookup k = some v) :
    (k, v) ∈ l := by
  induction l with
  | nil => simp [List.lookup] at h
  | cons e rest ih =>
      rcases e with ⟨k', v'⟩
      by_cases hk : k = k'
      · subst hk
        simp [List.lookup] at h
        simp [h]
      · have hbeq : (k == k') = false := by simpa using hk
        simp only [List.lookup, hbeq] at h
        exact List.mem_cons_of_mem _ (ih h)

theorem lookup_eq_none_iff {α β : Type} [BEq α] [LawfulBEq α]
    (l : List (α × β)) (k : α) :
    l.lookup k = none ↔ k ∉ l.map Prod.fst := by
  rw [← lookup_isSome_iff l k, Option.isSome_iff_ne_none]
  tauto

/-! ### C5: capacity 0 at construction -/

/-- Helper for C5: the capacity-0 tracker accepts a push and records it. -/
theorem new_zero_usable :
    ((PriorityFeeTracker.new 0).push_priority_fee_for_txn U64MAX [] 5
        false).priority_fees
      = [(U64MAX, SlotPriorityFees.new U64MAX [] 5 false)] := by
  rfl

/-- C5 counterexample: construction with capacity 0 is not rejected — there
is no InvalidCapacity error anywhere in the code; the constructor returns a
tracker whose slot cache simply has capacity 0, and that tracker is usable:
a push goes through and creates a ledger record. -/
theorem c5_counterexample :
    PriorityFeeTracker.new 0
        = { priority_fees := []
            slot_cache :=
              { capacity := 0, slot_queue := [], slot_set := []
                last_seen_slot := U64MAX } }
      ∧ (((PriorityFeeTracker.new 0).push_priority_fee_for_txn U64MAX [] 5
            false).priority_fees.lookup U64MAX).isSome = true := by
  refine ⟨rfl, ?_⟩
  rw [new_zero_usable]
  rfl

/-- C5 amended: `SlotCache::new` and `PriorityFeeTracker::new` are total
for every capacity, capacity 0 included: no error kind rejects
construction, and the resulting capacity-0 tracker accepts pushes (the
claimed InvalidCapacity rejection does not exist in the code). -/
theorem c5_amended :
    (∀ cap : Nat,
      PriorityFeeTracker.new cap
        = { priority_fees := []
            slot_cache :=
              { capacity := cap, slot_queue := [], slot_set := []
                last_seen_slot := U64MAX } })
      ∧ (((PriorityFeeTracker.new 0).push_priority_fee_for_txn U64MAX [] 5
            false).priority_fees.lookup U64MAX).isSome = true := by
  refine ⟨fun cap => rfl, ?_⟩
  rw [new_zero_usable]
  rfl

/-! ### C8: the shape of the Algo-A (v1) result -/

/-- Helper for C8: when accounts is empty, the per-slot collection step
never touches the combined account vector. -/
theorem v1_fold_empty_accounts (include_vote include_empty_slots : Bool)
    (priority_fees : PriorityFeesBySlot) (slots : List Slot)
    (acc : List ℚ × List ℚ) :
    (slots.foldl
      (fun acc slot =>
        match priority_fees.lookup slot with
        | some slot_priority_fees =>
            v1_collect [] include_vote include_empty_slots
              slot_priority_fees acc
        | none => acc)
      acc).2 = acc.2 := by
  induction slots generalizing acc with
  | nil => rfl
  | cons s rest ih =>
      rcases h : priority_fees.lookup s with _ | sf
      · simpa [h] using ih acc
      · simp only [List.foldl, h]
        rw [ih]
        rfl

/-- C8: for every ledger state and every Algo-A request the returned map
has exactly the two keys `Global` and `AllAccounts`; with an empty accounts
list the `AllAccounts` bucket is empty; with `lookback = 0` both buckets
are empty.  (The empty ledger is the special case of the first clause with
any arguments, where both folds run over no slots.) -/
theorem c8_v1_result_shape :
    (∀ (accounts : List Account) (include_vote include_empty_slots : Bool)
        (lookback_period : Option Nat) (priority_fees : PriorityFeesBySlot),
      ∃ g af,
        v1_get_priority_fee_estimates accounts include_vote
            include_empty_slots lookback_period priority_fees
          = [(DataType.global, g), (DataType.allAccounts, af)])
      ∧ (∀ (include_vote include_empty_slots : Bool)
          (lookback_period : Option Nat)
          (priority_fees : PriorityFeesBySlot),
        ∃ g,
          v1_get_priority_fee_estimates [] include_vote include_empty_slots
              lookback_period priority_fees
            = [(DataType.global, g), (DataType.allAccounts, [])])
      ∧ (∀ (accounts : List Account)
          (include_vote include_empty_slots : Bool)
          (priority_fees : PriorityFeesBySlot),
        v1_get_priority_fee_estimates accounts include_vote
            include_empty_slots (some 0) priority_fees
          = [(DataType.global, []), (DataType.allAccounts, [])]) := by
  refine ⟨fun accounts iv ies lb pf => ⟨_, _, rfl⟩, ?_, ?_⟩
  · intro iv ies lb pf
    exact ⟨_, by
      simp only [v1_get_priority_fee_estimates]
      rw [v1_fold_empty_accounts]⟩
  · intro accounts iv ies pf
    unfold v1_get_priority_fee_estimates
    simp [calculate_lookback_size]

/-! ### C1: the percentile definition -/

/-- The spec's percentile definition, transcribed independently: on a
sorted sample of size n, with h = (n-1) * p / 100, the result is
sorted[floor h] + (h - floor h) * (sorted[ceil h] - sorted[floor h]);
empty samples yield NaN (`none`). -/
def type7_quantile (sample : List ℚ) (p : Nat) : Option ℚ :=
  match sample with
  | [] => none
  | _ :: _ =>
      let sorted := sortedOf sample
      let n := sample.length
      let h : ℚ := ((n - 1 : Nat) : ℚ) * (p : ℚ) / 100
      some (sorted.getD (Int.toNat ⌊h⌋) 0
        + (h - (⌊h⌋ : ℚ))
          * (sorted.getD (Int.toNat ⌈h⌉) 0 - sorted.getD (Int.toNat ⌊h⌋) 0))

/-- C1: the percentile value the engine computes is the type-7 quantile —
the modelled `percentile` agrees with the spec formula on every sample and
every percentile point, is NaN exactly on the empty sample, and is what
both call sites use: the detailed query's per-bucket estimates are the six
percentiles of that bucket, and the estimate fold is the same fold with
every `percentile` call replaced by the type-7 quantile. -/
theorem c1_percentile_type7 :
    (∀ (xs : List ℚ) (p : Nat), percentile xs p = type7_quantile xs p)
      ∧ (∀ p : Nat, percentile [] p = none)
      ∧ (∀ xs : List ℚ,
          (detailsFor xs).estimates
            = { min := percentile xs 0, low := percentile xs 25
                medium := percentile xs 50, high := percentile xs 75
                very_high := percentile xs 95
                unsafe_max := percentile xs 100 })
      ∧ (∀ (d : DataStats) (est : MicroLamportPriorityFeeEstimates),
          estimate_max_values d est
            = d.foldl
                (fun est e =>
                  { min := maxStep est.min (type7_quantile e.2 0)
                    low := maxStep est.low (type7_quantile e.2 25)
                    medium := maxStep est.medium (type7_quantile e.2 50)
                    high := maxStep est.high (type7_quantile e.2 75)
                    very_high := maxStep est.very_high (type7_quantile e.2 95)
                    unsafe_max :=
                      maxStep est.unsafe_max (type7_quantile e.2 100) })
                est) := by
  have hpt : ∀ (xs : List ℚ) (p : Nat), percentile xs p = type7_quantile xs p := by
    intro xs p
    cases xs with
    | nil => rfl
    | cons x rest => simp [percentile, type7_quantile, interpAt, hIndex]
  refine ⟨hpt, fun p => rfl, fun xs => rfl, ?_⟩
  intro d est
  induction d generalizing est with
  | nil => rfl
  | cons e rest ih =>
      simp only [estimate_max_values, List.foldl] at ih ⊢
      rw [← hpt, ← hpt, ← hpt, ← hpt, ← hpt, ← hpt]
      exact ih _

/-! ### C2: the estimate fold -/

/-- One level-update of the fold, on the accumulator's value: a NaN bucket
value leaves the accumulator, a real one pushes it up to the max. -/
def foldStep1 (a : ℚ) (v : Option ℚ) : ℚ :=
  match v with
  | some b => max a b
  | none => a

/-- Folding the defined (non-NaN) values into a running maximum. -/
def foldMax (a : ℚ) (l : List (Option ℚ)) : ℚ := l.foldl foldStep1 a

theorem maxStep_some (a : ℚ) (v : Option ℚ) :
    maxStep (some a) v = some (foldStep1 a v) := by
  cases v with
  | none => rfl
  | some b =>
      simp only [maxStep, nanGt, foldStep1, Option.isNone_some, Bool.or_false]
      by_cases h : a < b
      · simp [h, max_eq_right (le_of_lt h)]
      · simp [h, max_eq_left (le_of_not_lt h)]

/-- Helper for C2: with a fully-defined accumulator (the actual call sites
seed the fold with the all-zero `Default`), `estimate_max_values` computes,
level by level, the running maximum of the accumulator and the defined
percentile values of the buckets. -/
theorem estimate_max_values_eq_foldMax (d : DataStats)
    (a1 a2 a3 a4 a5 a6 : ℚ) :
    estimate_max_values d
        { min := some a1, low := some a2, medium := some a3, high := some a4
          very_high := some a5, unsafe_max := some a6 }
      = { min := some (foldMax a1 (d.map (fun e => percentile e.2 0)))
          low := some (foldMax a2 (d.map (fun e => percentile e.2 25)))
          medium := some (foldMax a3 (d.map (fun e => percentile e.2 50)))
          high := some (foldMax a4 (d.map (fun e => percentile e.2 75)))
          very_high := some (foldMax a5 (d.map (fun e => percentile e.2 95)))
          unsafe_max :=
            some (foldMax a6 (d.map (fun e => percentile e.2 100))) } := by
  induction d generalizing a1 a2 a3 a4 a5 a6 with
  | nil => rfl
  | cons e rest ih =>
      simp only [estimate_max_values, List.foldl, List.map, foldMax] at ih ⊢
      rw [maxStep_some, maxStep_some, maxStep_some, maxStep_some, maxStep_some,
        maxStep_some]
      exact ih _ _ _ _ _ _

theorem foldStep1_right_comm (a : ℚ) (v w : Option ℚ) :
    foldStep1 (foldStep1 a v) w = foldStep1 (foldStep1 a w) v := by
  cases v with
  | none => rfl
  | some b =>
      cases w with
      | none => rfl
      | some c => simp [foldStep1, sup_right_comm]

instance : RightCommutative foldStep1 :=
  ⟨fun a v w => foldStep1_right_comm a v w⟩

theorem foldMax_perm (a : ℚ) {l₁ l₂ : List (Option ℚ)} (h : l₁.Perm l₂) :
    foldMax a l₁ = foldMax a l₂ :=
  h.foldl_eq a

/-- C2 counterexample: the fold's accumulator does not start at NaN.  On
the empty tracker every bucket of the Algo-A result is empty, so every
bucket percentile is NaN; the claim then demands a NaN estimate, but the
engine returns the all-zero `Default` the fold was seeded with. -/
theorem c2_counterexample :
    (PriorityFeeTracker.new 10).calculate_priority_fee
        (Calculations.calculation1 [] false false none)
      = MicroLamportPriorityFeeEstimates.default
      ∧ ((PriorityFeeTracker.new 10).calculate_priority_fee
          (Calculations.calculation1 [] false false none)).min ≠ none := by
  have h : (PriorityFeeTracker.new 10).calculate_priority_fee
      (Calculations.calculation1 [] false false none)
      = MicroLamportPriorityFeeEstimates.default := rfl
  refine ⟨h, ?_⟩
  rw [h]
  simp [MicroLamportPriorityFeeEstimates.default]

/-- C2 amended: the accumulator starts at the all-zero derived `Default`
(0.0 per level, not NaN); a bucket value replaces the accumulator exactly
when the accumulator is NaN or the value is strictly greater, and since
the seed is not NaN and NaN never wins a comparison, each returned level
is the maximum of 0.0 and the defined (non-NaN) bucket percentiles — never
NaN, and 0.0 (not NaN) when every bucket yields NaN.  The result is
independent of bucket iteration order. -/
theorem c2_fold_max_from_zero :
    (∀ d : DataStats,
      estimate_max_values d MicroLamportPriorityFeeEstimates.default
        = { min := some (foldMax 0 (d.map (fun e => percentile e.2 0)))
            low := some (foldMax 0 (d.map (fun e => percentile e.2 25)))
            medium := some (foldMax 0 (d.map (fun e => percentile e.2 50)))
            high := some (foldMax 0 (d.map (fun e => percentile e.2 75)))
            very_high := some (foldMax 0 (d.map (fun e => percentile e.2 95)))
            unsafe_max :=
              some (foldMax 0 (d.map (fun e => percentile e.2 100))) })
      ∧ (∀ d₁ d₂ : DataStats, d₁.Perm d₂ →
          estimate_max_values d₁ MicroLamportPriorityFeeEstimates.default
            = estimate_max_values d₂ MicroLamportPriorityFeeEstimates.default) := by
  have hchar : ∀ d : DataStats,
      estimate_max_values d MicroLamportPriorityFeeEstimates.default
        = { min := some (foldMax 0 (d.map (fun e => percentile e.2 0)))
            low := some (foldMax 0 (d.map (fun e => percentile e.2 25)))
            medium := some (foldMax 0 (d.map (fun e => percentile e.2 50)))
            high := some (foldMax 0 (d.map (fun e => percentile e.2 75)))
            very_high := some (foldMax 0 (d.map (fun e => percentile e.2 95)))
            unsafe_max :=
              some (foldMax 0 (d.map (fun e => percentile e.2 100))) } := by
    intro d
    rw [MicroLamportPriorityFeeEstimates.default]
    exact estimate_max_values_eq_foldMax d 0 0 0 0 0 0
  refine ⟨hchar, fun d₁ d₂ hp => ?_⟩
  rw [hchar d₁, hchar d₂]
  have hm : ∀ p : Nat,
      foldMax 0 (d₁.map (fun e => percentile e.2 p))
        = foldMax 0 (d₂.map (fun e => percentile e.2 p)) :=
    fun p => foldMax_perm 0 (hp.map _)
  rw [hm 0, hm 25, hm 50, hm 75, hm 95, hm 100]

/-- C2 witness: the order-independence clause applied at a concrete pair
of bucket maps that are permutations of each other. -/
theorem c2_fold_max_from_zero_witness :
    estimate_max_values
        [(DataType.global, [(1 : ℚ)]), (DataType.allAccounts, [])]
        MicroLamportPriorityFeeEstimates.default
      = estimate_max_values
          [(DataType.allAccounts, []), (DataType.global, [(1 : ℚ)])]
          MicroLamportPriorityFeeEstimates.default :=
  c2_fold_max_from_zero.2 _ _ (List.Perm.swap _ _ _)

/-! ### C4: the basic-percentile scenario

Batteries marks the rational operations irreducible; concrete kernel
evaluation of the scenario needs them semireducible in this file. -/

attribute [local semireducible] Rat.add Rat.mul Rat.sub Rat.inv

/-- Rewriting helper: on a non-empty sample with a known sorted form, the
percentile is the interpolation on that sorted list. -/
theorem percentile_eval (xs s : List ℚ) (p : Nat) (h1 : xs.isEmpty = false)
    (h2 : sortedOf xs = s) :
    percentile xs p = some (interpAt s (hIndex xs.length p)) := by
  simp [percentile, h1, h2]

/-- The C4 scenario's three accounts. -/
def c4_accounts : List Account := [1, 2, 3]

/-- The C4 scenario: capacity 10; 101 non-vote transactions with fees
0..=100 pushed into slot 1, each listing the three accounts. -/
def c4_tracker : PriorityFeeTracker :=
  (List.range 101).foldl
    (fun t fee => t.push_priority_fee_for_txn 1 c4_accounts fee false)
    (PriorityFeeTracker.new 10)

/-- The C4 query: Algo-A over the three accounts, vote fees excluded,
no empty-slot injection, no lookback. -/
def c4_estimates : MicroLamportPriorityFeeEstimates :=
  c4_tracker.calculate_priority_fee
    (Calculations.calculation1 c4_accounts false false none)

/-- The scenario's global bucket: the fees 0..=100. -/
def c4_g101 : List ℚ := (List.range 101).map (fun n => (n : ℚ))

/-- The scenario's combined-accounts bucket: each account contributes the
full fee list. -/
def c4_a303 : List ℚ := c4_g101 ++ c4_g101 ++ c4_g101

/-- The combined-accounts bucket in sorted order: every fee three times. -/
def c4_sortedA : List ℚ :=
  (List.range 101).flatMap (fun n => [(n : ℚ), (n : ℚ), (n : ℚ)])

set_option maxRecDepth 40000 in
/-- Helper for C4: the aggregated buckets of the scenario. -/
theorem c4_data :
    Calculations.get_priority_fee_estimates
        (Calculations.calculation1 c4_accounts false false none)
        c4_tracker.priority_fees
      = [(DataType.global, c4_g101), (DataType.allAccounts, c4_a303)] := by
  decide

set_option maxRecDepth 40000 in
/-- Helper for C4: the global bucket arrives already sorted. -/
theorem c4_sorted_g : sortedOf c4_g101 = c4_g101 := by decide

set_option maxRecDepth 200000 in
set_option maxHeartbeats 2000000 in
/-- Helper for C4: sorting the combined-accounts bucket. -/
theorem c4_sorted_a : sortedOf c4_a303 = c4_sortedA := by decide

set_option maxRecDepth 40000 in
/-- Helper for C4: the six percentile values of both buckets under the
spec's percentile definition.  On the 101-sample global bucket every point
lands on an integer rank; on the 303-sample bucket the interpolation is
between equal values, so each result is exact. -/
theorem c4_percentiles :
    (percentile c4_g101 0 = some 0 ∧ percentile c4_g101 25 = some 25
        ∧ percentile c4_g101 50 = some 50 ∧ percentile c4_g101 75 = some 75
        ∧ percentile c4_g101 95 = some 95
        ∧ percentile c4_g101 100 = some 100)
      ∧ (percentile c4_a303 0 = some 0 ∧ percentile c4_a303 25 = some 25
        ∧ percentile c4_a303 50 = some 50 ∧ percentile c4_a303 75 = some 75
        ∧ percentile c4_a303 95 = some 95
        ∧ percentile c4_a303 100 = some 100) := by
  constructor
  · refine ⟨?_, ?_, ?_, ?_, ?_, ?_⟩ <;>
      (rw [percentile_eval _ _ _ (by decide) c4_sorted_g]; decide)
  · refine ⟨?_, ?_, ?_, ?_, ?_, ?_⟩ <;>
      (rw [percentile_eval _ _ _ (by decide) c4_sorted_a]; decide)

/-- Helper for C4: the scenario's estimate, evaluated. -/
theorem c4_eval :
    c4_estimates
      = { min := some 0, low := some 25, medium := some 50, high := some 75
          very_high := some 95, unsafe_max := some 100 } := by
  obtain ⟨⟨hg0, hg25, hg50, hg75, hg95, hg100⟩,
    ⟨ha0, ha25, ha50, ha75, ha95, ha100⟩⟩ := c4_percentiles
  show c4_tracker.calculate_priority_fee
      (Calculations.calculation1 c4_accounts false false none) = _
  rw [PriorityFeeTracker.calculate_priority_fee, c4_data]
  simp only [estimate_max_values, List.foldl]
  rw [hg0, hg25, hg50, hg75, hg95, hg100, ha0, ha25, ha50, ha75, ha95, ha100]
  decide

/-- C4 counterexample: in the scenario the engine's very_high level is 95,
not the claimed 96 — under the spec's own percentile definition the 95th
percentile of 0..=100 is 95 (and of the tripled 303-sample bucket also
95), so the fold's maximum is 95. -/
theorem c4_counterexample :
    c4_estimates.very_high = some 95 ∧ c4_estimates.very_high ≠ some 96 := by
  rw [c4_eval]
  refine ⟨rfl, by decide⟩

/-- C4 amended: the scenario returns exactly min=0, low=25, medium=50,
high=75, very_high=95, unsafe_max=100. -/
theorem c4_scenario_estimates :
    c4_estimates
      = { min := some 0, low := some 25, medium := some 50, high := some 75
          very_high := some 95, unsafe_max := some 100 } :=
  c4_eval

/-! ### C3: bucket presence under Algo-B (v2) -/

theorem entryModify_lookup_self (m : DataStats) (k : DataType)
    (f : List ℚ → List ℚ) :
    (entryModify m k f).lookup k = some (f ((m.lookup k).getD [])) := by
  induction m with
  | nil => simp [entryModify, List.lookup]
  | cons e rest ih =>
      rcases e with ⟨k', v⟩
      by_cases hk : k' = k
      · subst hk
        simp [entryModify, List.lookup]
      · have hbeq : (k == k') = false := by
          simpa using fun h => hk h.symm
        simp [entryModify, hk, List.lookup, hbeq, ih]

theorem entryModify_lookup_ne (m : DataStats) {k k' : DataType}
    (f : List ℚ → List ℚ) (h : k' ≠ k) :
    (entryModify m k f).lookup k' = m.lookup k' := by
  induction m with
  | nil =>
      have hbeq : (k' == k) = false := by simpa using h
      simp [entryModify, List.lookup, hbeq]
  | cons e rest ih =>
      rcases e with ⟨k'', v⟩
      by_cases hk : k'' = k
      · subst hk
        have hbeq : (k' == k'') = false := by simpa using h
        simp [entryModify, List.lookup, hbeq]
      · simp only [entryModify, if_neg hk]
        by_cases hk2 : k' = k''
        · subst hk2
          simp [List.lookup]
        · have hbeq : (k' == k'') = false := by simpa using hk2
          simp [List.lookup, hbeq, ih]

theorem entryModify_isSome (m : DataStats) (k k' : DataType)
    (f : List ℚ → List ℚ) (h : (m.lookup k').isSome) :
    ((entryModify m k f).lookup k').isSome := by
  by_cases hk : k' = k
  · subst hk
    rw [entryModify_lookup_self]
    rfl
  · rw [entryModify_lookup_ne m f hk]
    exact h

/-- The per-account collection step of v2, abstracted over the payload
function. -/
def accFold (g : Account → List ℚ → List ℚ) (as : List Account)
    (data : DataStats) : DataStats :=
  as.foldl (fun d a => entryModify d (DataType.account a) (g a)) data

theorem accFold_cons (g : Account → List ℚ → List ℚ) (b : Account)
    (rest : List Account) (data : DataStats) :
    accFold g (b :: rest) data
      = accFold g rest (entryModify data (DataType.account b) (g b)) :=
  rfl

theorem accFold_isSome (g : Account → List ℚ → List ℚ) (as : List Account)
    (data : DataStats) (k : DataType) (h : (data.lookup k).isSome) :
    ((accFold g as data).lookup k).isSome := by
  induction as generalizing data with
  | nil => exact h
  | cons b rest ih =>
      rw [accFold_cons]
      exact ih _ (entryModify_isSome _ _ _ _ h)

theorem accFold_mem_isSome (g : Account → List ℚ → List ℚ) :
    ∀ (as : List Account) (data : DataStats) {a : Account}, a ∈ as →
      ((accFold g as data).lookup (DataType.account a)).isSome := by
  intro as
  induction as with
  | nil => intro data a ha; cases ha
  | cons b rest ih =>
      intro data a ha
      rw [accFold_cons]
      rcases List.mem_cons.mp ha with hb | hb
      · subst hb
        have h1 : ((entryModify data (DataType.account a)
            (g a)).lookup (DataType.account a)).isSome := by
          rw [entryModify_lookup_self]
          rfl
        exact accFold_isSome g rest _ _ h1
      · exact ih _ hb

/-- The zero-bucket property of an unseen account's bucket: if present, it
is empty unless `include_empty_slots`, and all its samples are zero. -/
def ZeroBucket (include_empty_slots : Bool) (v : Option (List ℚ)) : Prop :=
  ∀ zs, v = some zs → (include_empty_slots = false → zs = []) ∧ ∀ z ∈ zs, z = 0

theorem ZeroBucket_push (include_empty_slots : Bool) (v : Option (List ℚ))
    (h : ZeroBucket include_empty_slots v) :
    ZeroBucket include_empty_slots
      (some (if include_empty_slots then v.getD [] ++ [0] else v.getD [])) := by
  intro zs hzs
  have hzs' : zs = if include_empty_slots then v.getD [] ++ [0] else v.getD [] :=
    (Option.some.inj hzs).symm
  subst hzs'
  have hold : (include_empty_slots = false → v.getD [] = [])
      ∧ ∀ z ∈ v.getD [], z = 0 := by
    rcases v with _ | old
    · simp
    · simpa using h old rfl
  cases include_empty_slots with
  | false =>
      simp only [if_neg (by simp : ¬(false = true))]
      exact ⟨fun _ => hold.1 rfl, hold.2⟩
  | true =>
      simp only [if_pos rfl]
      refine ⟨(fun hc => by simp at hc), ?_⟩
      intro z hz
      rcases List.mem_append.mp hz with hz | hz
      · exact hold.2 z hz
      · simpa using hz

theorem accFold_ZeroBucket (include_empty_slots : Bool)
    (g : Account → List ℚ → List ℚ) (as : List Account) (data : DataStats)
    (a : Account)
    (hga : ∀ v, g a v = if include_empty_slots then v ++ [0] else v)
    (h : ZeroBucket include_empty_slots (data.lookup (DataType.account a))) :
    ZeroBucket include_empty_slots
      ((accFold g as data).lookup (DataType.account a)) := by
  induction as generalizing data with
  | nil => exact h
  | cons b rest ih =>
      rw [accFold_cons]
      refine ih _ ?_
      by_cases hb : b = a
      · subst hb
        rw [entryModify_lookup_self, hga]
        exact ZeroBucket_push include_empty_slots _ h
      · have hne : DataType.account a ≠ DataType.account b := by
          intro hc
          injection hc with hc
          exact hb hc.symm
        rw [entryModify_lookup_ne _ _ hne]
        exact h

theorem v2_collect_isSome (accounts : List Account)
    (include_vote include_empty_slots : Bool) (sf : SlotPriorityFees)
    (data : DataStats) (k : DataType) (h : (data.lookup k).isSome) :
    ((v2_collect accounts include_vote include_empty_slots sf data).lookup
      k).isSome := by
  have h1 := entryModify_isSome data DataType.global k
    (fun v => v ++ contrib include_vote sf.fees) h
  exact accFold_isSome _ accounts _ k h1

theorem v2_collect_global_isSome (accounts : List Account)
    (include_vote include_empty_slots : Bool) (sf : SlotPriorityFees)
    (data : DataStats) :
    ((v2_collect accounts include_vote include_empty_slots sf data).lookup
      DataType.global).isSome := by
  have h1 : ((entryModify data DataType.global
      (fun v => v ++ contrib include_vote sf.fees)).lookup
        DataType.global).isSome := by
    rw [entryModify_lookup_self]
    rfl
  exact accFold_isSome _ accounts _ _ h1

theorem v2_collect_account_isSome (accounts : List Account)
    (include_vote include_empty_slots : Bool) (sf : SlotPriorityFees)
    (data : DataStats) {a : Account} (ha : a ∈ accounts) :
    ((v2_collect accounts include_vote include_empty_slots sf data).lookup
      (DataType.account a)).isSome :=
  accFold_mem_isSome _ accounts _ ha

theorem v2_collect_ZeroBucket (accounts : List Account)
    (include_vote include_empty_slots : Bool) (sf : SlotPriorityFees)
    (data : DataStats) (a : Account)
    (hsf : sf.account_fees.lookup a = none)
    (h : ZeroBucket include_empty_slots
      (data.lookup (DataType.account a))) :
    ZeroBucket include_empty_slots
      ((v2_collect accounts include_vote include_empty_slots sf data).lookup
        (DataType.account a)) := by
  refine accFold_ZeroBucket include_empty_slots _ accounts _ a ?_ ?_
  · intro v
    rw [hsf]
  · rw [entryModify_lookup_ne]
    · exact h
    · intro hc
      cases hc

/-- The per-slot step of the v2 aggregation fold. -/
def v2_step (accounts : List Account) (include_vote include_empty_slots : Bool)
    (pf : PriorityFeesBySlot) (data : DataStats) (slot : Slot) : DataStats :=
  match pf.lookup slot with
  | some slot_priority_fees =>
      v2_collect accounts include_vote include_empty_slots
        slot_priority_fees data
  | none => data

theorem v2_get_eq_fold (accounts : List Account)
    (include_vote include_empty_slots : Bool) (lookback_period : Option Nat)
    (pf : PriorityFeesBySlot) :
    v2_get_priority_fee_estimates accounts include_vote include_empty_slots
        lookback_period pf
      = ((slotsDesc pf).take
          (calculate_lookback_size lookback_period
            (slotsDesc pf).length)).foldl
          (v2_step accounts include_vote include_empty_slots pf) [] :=
  rfl

theorem v2_fold_isSome (accounts : List Account)
    (include_vote include_empty_slots : Bool) (pf : PriorityFeesBySlot)
    (slots : List Slot) (data : DataStats) (k : DataType)
    (h : (data.lookup k).isSome) :
    ((slots.foldl (v2_step accounts include_vote include_empty_slots pf)
      data).lookup k).isSome := by
  induction slots generalizing data with
  | nil => exact h
  | cons s rest ih =>
      simp only [List.foldl]
      refine ih _ ?_
      rcases hs : pf.lookup s with _ | sf
      · simpa [v2_step, hs] using h
      · simpa [v2_step, hs] using
          v2_collect_isSome accounts include_vote include_empty_slots sf
            data k h

theorem v2_fold_global_isSome (accounts : List Account)
    (include_vote include_empty_slots : Bool) (pf : PriorityFeesBySlot)
    (slots : List Slot) (data : DataStats) (hne : slots ≠ [])
    (hres : ∀ s ∈ slots, (pf.lookup s).isSome) :
    ((slots.foldl (v2_step accounts include_vote include_empty_slots pf)
      data).lookup DataType.global).isSome := by
  cases slots with
  | nil => cases hne rfl
  | cons s rest =>
      simp only [List.foldl]
      refine v2_fold_isSome accounts include_vote include_empty_slots pf
        rest _ DataType.global ?_
      have hs := hres s (List.mem_cons_self s rest)
      rcases hlk : pf.lookup s with _ | sf
      · rw [hlk] at hs
        cases hs
      · simpa [v2_step, hlk] using
          v2_collect_global_isSome accounts include_vote include_empty_slots
            sf data

theorem v2_fold_account_isSome (accounts : List Account)
    (include_vote include_empty_slots : Bool) (pf : PriorityFeesBySlot)
    (slots : List Slot) (data : DataStats) {a : Account} (ha : a ∈ accounts)
    (hne : slots ≠ []) (hres : ∀ s ∈ slots, (pf.lookup s).isSome) :
    ((slots.foldl (v2_step accounts include_vote include_empty_slots pf)
      data).lookup (DataType.account a)).isSome := by
  cases slots with
  | nil => cases hne rfl
  | cons s rest =>
      simp only [List.foldl]
      refine v2_fold_isSome accounts include_vote include_empty_slots pf
        rest _ (DataType.account a) ?_
      have hs := hres s (List.mem_cons_self s rest)
      rcases hlk : pf.lookup s with _ | sf
      · rw [hlk] at hs
        cases hs
      · simpa [v2_step, hlk] using
          v2_collect_account_isSome accounts include_vote include_empty_slots
            sf data ha

theorem v2_fold_ZeroBucket (accounts : List Account)
    (include_vote include_empty_slots : Bool) (pf : PriorityFeesBySlot)
    (slots : List Slot) (data : DataStats) (a : Account)
    (hA : ∀ e ∈ pf, e.2.account_fees.lookup a = none)
    (h : ZeroBucket include_empty_slots (data.lookup (DataType.account a))) :
    ZeroBucket include_empty_slots
      ((slots.foldl (v2_step accounts include_vote include_empty_slots pf)
        data).lookup (DataType.account a)) := by
  induction slots generalizing data with
  | nil => exact h
  | cons s rest ih =>
      simp only [List.foldl]
      refine ih _ ?_
      rcases hs : pf.lookup s with _ | sf
      · simpa [v2_step, hs] using h
      · have hsf : sf.account_fees.lookup a = none :=
          hA (s, sf) (lookup_mem hs)
        simpa [v2_step, hs] using
          v2_collect_ZeroBucket accounts include_vote include_empty_slots sf
            data a hsf h

theorem slotsDesc_mem (pf : PriorityFeesBySlot) (s : Slot) :
    s ∈ slotsDesc pf ↔ s ∈ pf.map Prod.fst := by
  unfold slotsDesc
  rw [List.mem_reverse]
  exact (List.perm_insertionSort (· ≤ ·) (pf.map Prod.fst)).mem_iff

theorem accFold_getD (g : Account → List ℚ → List ℚ) (a : Account) (z : ℚ)
    (k : Nat) (hga : ∀ v, g a v = v ++ List.replicate k z) :
    ∀ (as : List Account) (data : DataStats),
    ((accFold g as data).lookup (DataType.account a)).getD []
      = ((data.lookup (DataType.account a)).getD [])
          ++ List.replicate (as.count a * k) z := by
  intro as
  induction as with
  | nil => intro data; simp [accFold]
  | cons b rest ih =>
      intro data
      rw [accFold_cons, ih]
      by_cases hb : b = a
      · subst hb
        rw [entryModify_lookup_self, hga, Option.getD_some,
          List.count_cons_self]
        have hk : (List.count b rest + 1) * k = k + List.count b rest * k := by
          ring
        rw [hk, List.replicate_add, ← List.append_assoc]
      · have hne : DataType.account a ≠ DataType.account b := by
          intro hc
          injection hc with hc
          exact hb hc.symm
        rw [entryModify_lookup_ne _ _ hne,
          List.count_cons_of_ne (fun hc => hb hc.symm)]

theorem v2_collect_getD (accounts : List Account)
    (include_vote include_empty_slots : Bool) (sf : SlotPriorityFees)
    (data : DataStats) (a : Account)
    (hsf : sf.account_fees.lookup a = none) :
    ((v2_collect accounts include_vote include_empty_slots sf data).lookup
        (DataType.account a)).getD []
      = ((data.lookup (DataType.account a)).getD [])
          ++ List.replicate
              (accounts.count a * (if include_empty_slots then 1 else 0))
              (0 : ℚ) := by
  have hga : ∀ v : List ℚ,
      (match sf.account_fees.lookup a with
        | some account_priority_fees =>
            v ++ contrib include_vote account_priority_fees
        | none => if include_empty_slots then v ++ [0] else v)
      = v ++ List.replicate (if include_empty_slots then 1 else 0) (0 : ℚ) := by
    intro v
    simp only [hsf]
    cases include_empty_slots <;> simp
  have h1 := accFold_getD
    (fun account v =>
      match sf.account_fees.lookup account with
      | some account_priority_fees =>
          v ++ contrib include_vote account_priority_fees
      | none => if include_empty_slots then v ++ [0] else v)
    a (0 : ℚ) (if include_empty_slots then 1 else 0) hga accounts
    (entryModify data DataType.global
      (fun v => v ++ contrib include_vote sf.fees))
  rw [entryModify_lookup_ne _ _
    (show DataType.account a ≠ DataType.global from fun hc => by cases hc)]
    at h1
  exact h1

theorem v2_fold_getD (accounts : List Account)
    (include_vote include_empty_slots : Bool) (pf : PriorityFeesBySlot)
    (slots : List Slot) (data : DataStats) (a : Account)
    (hA : ∀ e ∈ pf, e.2.account_fees.lookup a = none)
    (hres : ∀ s ∈ slots, (pf.lookup s).isSome) :
    ((slots.foldl (v2_step accounts include_vote include_empty_slots pf)
        data).lookup (DataType.account a)).getD []
      = ((data.lookup (DataType.account a)).getD [])
          ++ List.replicate
              (slots.length
                * (accounts.count a
                    * (if include_empty_slots then 1 else 0))) (0 : ℚ) := by
  induction slots generalizing data with
  | nil => simp
  | cons s rest ih =>
      simp only [List.foldl, List.length_cons]
      rw [ih _ (fun s hs => hres s (List.mem_cons_of_mem _ hs))]
      have hs := hres s (List.mem_cons_self s rest)
      rcases hlk : pf.lookup s with _ | sf
      · rw [hlk] at hs
        cases hs
      · have hstep : v2_step accounts include_vote include_empty_slots pf
            data s
            = v2_collect accounts include_vote include_empty_slots sf data := by
          simp [v2_step, hlk]
        rw [hstep,
          v2_collect_getD accounts include_vote include_empty_slots sf data a
            (hA (s, sf) (lookup_mem hlk)),
          List.append_assoc, ← List.replicate_add]
        congr 2
        ring

/-- C3 counterexample ledger: one slot whose transaction lists no
accounts, so the requested account 7 is unseen. -/
def c3_ledger : PriorityFeesBySlot :=
  ((PriorityFeeTracker.new 10).push_priority_fee_for_txn 1 [] 5
    false).priority_fees

/-- C3 counterexample: under Algo-B with include_empty_slots = false and
one examined slot, the bucket of an account seen in no slot is present —
with an empty sample vector (`entry(...).or_default()` materializes it) —
although the claim requires it to be absent (present iff
include_empty_slots, and only with at least one produced sample). -/
theorem c3_counterexample :
    (v2_get_priority_fee_estimates [7] false false none c3_ledger).lookup
        (DataType.account 7) = some []
      ∧ (v2_get_priority_fee_estimates [7] false false none c3_ledger).lookup
        (DataType.account 7) ≠ none := by
  refine ⟨by decide, by decide⟩

/-- C3 amended: for every ledger and Algo-B request, with
`L = calculate_lookback_size lookback (number of live slots)`, the GLOBAL
key is present iff L > 0 (in particular it is absent on the empty ledger),
and the key ACCOUNT(a) of every requested account a — seen or unseen — is
present iff L > 0, regardless of include_empty_slots.  For an account seen
in none of the slots, the bucket consists of zeros only, and when L > 0 it
is exactly `List.replicate (L * count) 0.0` with `count` the number of
occurrences of the account in the request when include_empty_slots is
true and 0 otherwise: one 0.0 per examined slot and per request
occurrence when include_empty_slots is true, and the empty vector
otherwise. -/
theorem c3_bucket_presence (accounts : List Account)
    (include_vote include_empty_slots : Bool) (lookback_period : Option Nat)
    (pf : PriorityFeesBySlot) :
    (((v2_get_priority_fee_estimates accounts include_vote
          include_empty_slots lookback_period pf).lookup DataType.global
            ≠ none)
        ↔ 0 < calculate_lookback_size lookback_period (slotsDesc pf).length)
      ∧ (∀ a ∈ accounts,
          ((v2_get_priority_fee_estimates accounts include_vote
              include_empty_slots lookback_period pf).lookup
                (DataType.account a) ≠ none)
            ↔ 0 < calculate_lookback_size lookback_period
                (slotsDesc pf).length)
      ∧ (∀ a ∈ accounts, (∀ e ∈ pf, e.2.account_fees.lookup a = none) →
          ZeroBucket include_empty_slots
            ((v2_get_priority_fee_estimates accounts include_vote
              include_empty_slots lookback_period pf).lookup
                (DataType.account a)))
      ∧ (∀ a ∈ accounts, (∀ e ∈ pf, e.2.account_fees.lookup a = none) →
          0 < calculate_lookback_size lookback_period
              (slotsDesc pf).length →
          (v2_get_priority_fee_estimates accounts include_vote
              include_empty_slots lookback_period pf).lookup
                (DataType.account a)
            = some (List.replicate
                (calculate_lookback_size lookback_period
                    (slotsDesc pf).length
                  * (accounts.count a
                      * (if include_empty_slots then 1 else 0)))
                (0 : ℚ))) := by
  rw [v2_get_eq_fold]
  have hres : ∀ s ∈ (slotsDesc pf).take
      (calculate_lookback_size lookback_period (slotsDesc pf).length),
      (pf.lookup s).isSome := by
    intro s hs
    have hs2 := (slotsDesc_mem pf s).mp (List.take_subset _ _ hs)
    exact (lookup_isSome_iff pf s).mpr hs2
  have hL : calculate_lookback_size lookback_period (slotsDesc pf).length
      ≤ (slotsDesc pf).length := min_le_left _ _
  have hne : 0 < calculate_lookback_size lookback_period
      (slotsDesc pf).length →
      (slotsDesc pf).take
        (calculate_lookback_size lookback_period (slotsDesc pf).length)
        ≠ [] := by
    intro hpos
    have : 0 < ((slotsDesc pf).take
        (calculate_lookback_size lookback_period
          (slotsDesc pf).length)).length := by
      rw [List.length_take]
      omega
    exact List.ne_nil_of_length_pos this
  have hzero : calculate_lookback_size lookback_period
        (slotsDesc pf).length = 0 →
      (slotsDesc pf).take
        (calculate_lookback_size lookback_period (slotsDesc pf).length)
        = [] := by
    intro h0
    rw [h0]
    rfl
  refine ⟨⟨fun hpres => ?_, fun hpos => ?_⟩, fun a ha => ⟨fun hpres => ?_,
    fun hpos => ?_⟩, fun a ha hA => ?_, fun a ha hA hpos => ?_⟩
  · by_contra h0
    have h0' : calculate_lookback_size lookback_period
        (slotsDesc pf).length = 0 := by omega
    rw [hzero h0'] at hpres
    exact hpres rfl
  · rw [Ne, ← Option.not_isSome_iff_eq_none, not_not]
    exact v2_fold_global_isSome accounts include_vote include_empty_slots pf
      _ [] (hne hpos) hres
  · by_contra h0
    have h0' : calculate_lookback_size lookback_period
        (slotsDesc pf).length = 0 := by omega
    rw [hzero h0'] at hpres
    exact hpres rfl
  · rw [Ne, ← Option.not_isSome_iff_eq_none, not_not]
    exact v2_fold_account_isSome accounts include_vote include_empty_slots pf
      _ [] ha (hne hpos) hres
  · refine v2_fold_ZeroBucket accounts include_vote include_empty_slots pf
      _ [] a hA ?_
    intro zs hzs
    cases hzs
  · have hsome : ((((slotsDesc pf).take
        (calculate_lookback_size lookback_period
          (slotsDesc pf).length)).foldl
          (v2_step accounts include_vote include_empty_slots pf)
          []).lookup (DataType.account a)).isSome :=
      v2_fold_account_isSome accounts include_vote include_empty_slots pf
        _ [] ha (hne hpos) hres
    have hgd := v2_fold_getD accounts include_vote include_empty_slots pf
      ((slotsDesc pf).take
        (calculate_lookback_size lookback_period (slotsDesc pf).length))
      [] a hA hres
    have hlen : ((slotsDesc pf).take
        (calculate_lookback_size lookback_period
          (slotsDesc pf).length)).length
        = calculate_lookback_size lookback_period (slotsDesc pf).length := by
      rw [List.length_take]
      omega
    rw [hlen] at hgd
    rw [List.lookup_nil, Option.getD_none, List.nil_append] at hgd
    rcases hv : (((slotsDesc pf).take
        (calculate_lookback_size lookback_period
          (slotsDesc pf).length)).foldl
          (v2_step accounts include_vote include_empty_slots pf)
          []).lookup (DataType.account a) with _ | v
    · rw [hv] at hsome
      cases hsome
    · rw [hv, Option.getD_some] at hgd
      exact congrArg some hgd

/-- C3 witness: the presence clause and the exact-value clause of
c3_bucket_presence at a concrete ledger and request (one slot, account 7
unseen, include_empty_slots = true, so L = 1, count = 1, and the bucket is
exactly [0.0]). -/
theorem c3_bucket_presence_witness :
    ((v2_get_priority_fee_estimates [7] false true none c3_ledger).lookup
        (DataType.account 7) ≠ none)
      ∧ (v2_get_priority_fee_estimates [7] false true none c3_ledger).lookup
          (DataType.account 7) = some [0] := by
  have h := c3_bucket_presence [7] false true none c3_ledger
  refine ⟨(h.2.1 7 (by decide)).mpr (by decide), ?_⟩
  have h4 := h.2.2.2 7 (by decide) (by decide) (by decide)
  rw [h4]
  decide

/-! ### C6: the capacity bound on the live slot set -/

/-- The slot-cache invariant: the queue is duplicate-free, the set mirrors
the queue, and the queue respects the capacity. -/
def CacheInv (c : SlotCache) : Prop :=
  c.slot_queue.Nodup ∧ c.slot_set.Perm c.slot_queue
    ∧ c.slot_queue.length ≤ c.capacity

theorem push_pop_capacity (c : SlotCache) (s : Slot) :
    ((c.push_pop s).1).capacity = c.capacity := by
  unfold SlotCache.push_pop
  by_cases h1 : c.last_seen_slot = s
  · simp [h1]
  · by_cases h2 : s ∈ c.slot_set
    · simp [h1, h2]
    · simp [h1, h2]

theorem push_pop_inv {c : SlotCache} (hcap : 1 ≤ c.capacity)
    (h : CacheInv c) (s : Slot) : CacheInv (c.push_pop s).1 := by
  obtain ⟨hnd, hperm, hlen⟩ := h
  unfold SlotCache.push_pop
  by_cases h1 : c.last_seen_slot = s
  · simpa [h1] using ⟨hnd, hperm, hlen⟩
  · by_cases h2 : s ∈ c.slot_set
    · simp only [if_neg h1, if_pos h2]
      exact ⟨hnd, hperm, hlen⟩
    · simp only [if_neg h1, if_neg h2]
      have hsq : s ∉ c.slot_queue := fun hm => h2 (hperm.mem_iff.mpr hm)
      unfold cbAdd
      by_cases h3 : c.slot_queue.length < c.capacity
      · have hmem : s ∉ c.slot_set := h2
        simp only [if_pos h3, hmem, if_false]
        refine ⟨?_, ?_, ?_⟩
        · exact ((List.perm_append_singleton s c.slot_queue).nodup_iff).mpr
            (List.nodup_cons.mpr ⟨hsq, hnd⟩)
        · simpa [h2] using hperm.append_right [s]
        · simpa using h3
      · have hq : c.slot_queue ≠ [] := by
          intro he
          rw [he] at h3
          simp at h3
          omega
        obtain ⟨hd, tl, hqe⟩ := List.exists_cons_of_ne_nil hq
        rw [hqe] at hnd hperm hlen h3 hsq ⊢
        simp only [if_neg h3, List.cons_append]
        have hs1 : s ∉ c.slot_set.erase hd :=
          fun hm => h2 (List.erase_subset _ _ hm)
        simp only [hs1, if_false]
        have herase : List.Perm (c.slot_set.erase hd) tl := by
          have := hperm.erase hd
          rwa [List.erase_cons_head] at this
        refine ⟨?_, ?_, ?_⟩
        · refine ((List.perm_append_singleton s tl).nodup_iff).mpr ?_
          refine List.nodup_cons.mpr ⟨?_, (List.nodup_cons.mp hnd).2⟩
          intro hm
          exact hsq (List.mem_cons_of_mem _ hm)
        · exact herase.append_right [s]
        · simpa using hlen

theorem push_slot_cache (t : PriorityFeeTracker) (slot : Slot)
    (accounts : List Account) (fee : Nat) (is_vote : Bool) :
    (t.push_priority_fee_for_txn slot accounts fee is_vote).slot_cache
      = (t.slot_cache.push_pop slot).1 :=
  rfl

theorem runTracker_cache_inv (ts : List Txn)
    (t : PriorityFeeTracker) (hinv : CacheInv t.slot_cache)
    (hcap : 1 ≤ t.slot_cache.capacity) :
    CacheInv (ts.foldl pushTxn t).slot_cache
      ∧ (ts.foldl pushTxn t).slot_cache.capacity = t.slot_cache.capacity := by
  induction ts generalizing t with
  | nil => exact ⟨hinv, rfl⟩
  | cons τ rest ih =>
      simp only [List.foldl]
      have h1 : CacheInv (pushTxn t τ).slot_cache := by
        rw [pushTxn, push_slot_cache]
        exact push_pop_inv hcap hinv τ.slot
      have h2 : (pushTxn t τ).slot_cache.capacity = t.slot_cache.capacity := by
        rw [pushTxn, push_slot_cache]
        exact push_pop_capacity t.slot_cache τ.slot
      have := ih (pushTxn t τ) h1 (by omega)
      exact ⟨this.1, by omega⟩

/-- C6: for a tracker of capacity C = cap + 1 ≥ 1, after every finite
sequence of pushes (any slots, any order, with repeats), the live slot
count — the size of the slot cache's slot set — is at most C. -/
theorem c6_capacity_bound (cap : Nat) (ts : List Txn) :
    (runTracker (cap + 1) ts).slot_cache.len ≤ cap + 1 := by
  rw [runTracker, SlotCache.len]
  have h := runTracker_cache_inv ts (PriorityFeeTracker.new (cap + 1))
    ⟨List.nodup_nil, List.Perm.refl [], by simp [PriorityFeeTracker.new, SlotCache.new]⟩
    (by simp [PriorityFeeTracker.new, SlotCache.new])
  obtain ⟨⟨hnd, hperm, hlen⟩, hcap⟩ := h
  have hset := hperm.length_eq
  have hc : (PriorityFeeTracker.new (cap + 1)).slot_cache.capacity = cap + 1 := by
    simp [PriorityFeeTracker.new, SlotCache.new]
  omega

/-! ### C9: percentile monotonicity -/

theorem sortedOf_sorted (xs : List ℚ) : (sortedOf xs).Sorted (· ≤ ·) :=
  List.sorted_insertionSort _ _

theorem sortedOf_length (xs : List ℚ) : (sortedOf xs).length = xs.length :=
  (List.perm_insertionSort _ _).length_eq

theorem sorted_getD_mono {s : List ℚ} (hs : s.Sorted (· ≤ ·)) {i j : Nat}
    (hij : i ≤ j) (hj : j < s.length) : s.getD i 0 ≤ s.getD j 0 := by
  have hi : i < s.length := Nat.lt_of_le_of_lt hij hj
  rw [List.getD_eq_getElem?_getD, List.getD_eq_getElem?_getD,
    List.getElem?_eq_getElem hi, List.getElem?_eq_getElem hj]
  simpa using hs.rel_get_of_le (a := ⟨i, hi⟩) (b := ⟨j, hj⟩) hij

theorem interpAt_between {s : List ℚ} (hs : s.Sorted (· ≤ ·)) {h : ℚ}
    (hub : Int.toNat ⌈h⌉ < s.length) :
    s.getD (Int.toNat ⌊h⌋) 0 ≤ interpAt s h
      ∧ interpAt s h ≤ s.getD (Int.toNat ⌈h⌉) 0 := by
  have hij : Int.toNat ⌊h⌋ ≤ Int.toNat ⌈h⌉ := by
    have := Int.floor_le_ceil h
    omega
  have hab : s.getD (Int.toNat ⌊h⌋) 0 ≤ s.getD (Int.toNat ⌈h⌉) 0 :=
    sorted_getD_mono hs hij hub
  have ht0 : 0 ≤ h - (⌊h⌋ : ℚ) := sub_nonneg.mpr (Int.floor_le h)
  have ht1 : h - (⌊h⌋ : ℚ) ≤ 1 := by
    have := Int.lt_floor_add_one h
    linarith
  unfold interpAt
  constructor
  · have := mul_nonneg ht0 (sub_nonneg.mpr hab)
    linarith
  · have hprod := mul_nonneg (by linarith : (0:ℚ) ≤ 1 - (h - (⌊h⌋ : ℚ)))
      (sub_nonneg.mpr hab)
    have hexp : (1 - (h - (⌊h⌋ : ℚ)))
          * (s.getD (Int.toNat ⌈h⌉) 0 - s.getD (Int.toNat ⌊h⌋) 0)
        = (s.getD (Int.toNat ⌈h⌉) 0 - s.getD (Int.toNat ⌊h⌋) 0)
          - (h - (⌊h⌋ : ℚ))
            * (s.getD (Int.toNat ⌈h⌉) 0 - s.getD (Int.toNat ⌊h⌋) 0) := by
      ring
    rw [hexp] at hprod
    linarith

theorem interpAt_mono {s : List ℚ} (hs : s.Sorted (· ≤ ·)) {h₁ h₂ : ℚ}
    (h0 : 0 ≤ h₁) (h12 : h₁ ≤ h₂) (hub : h₂ ≤ (s.length : ℚ) - 1) :
    interpAt s h₁ ≤ interpAt s h₂ := by
  have h02 : 0 ≤ h₂ := le_trans h0 h12
  have hceil2 : ⌈h₂⌉ ≤ (s.length : ℤ) - 1 := by
    refine Int.ceil_le.mpr ?_
    push_cast
    linarith
  have hceilnn2 : (0 : ℤ) ≤ ⌈h₂⌉ := Int.ceil_nonneg h02
  have hub2 : Int.toNat ⌈h₂⌉ < s.length := by omega
  have hceil12 : ⌈h₁⌉ ≤ ⌈h₂⌉ := Int.ceil_le_ceil h12
  have hceilnn1 : (0 : ℤ) ≤ ⌈h₁⌉ := Int.ceil_nonneg h0
  have hub1 : Int.toNat ⌈h₁⌉ < s.length := by omega
  have hfl1 : (0 : ℤ) ≤ ⌊h₁⌋ := Int.floor_nonneg.mpr h0
  have hfl2 : (0 : ℤ) ≤ ⌊h₂⌋ := Int.floor_nonneg.mpr h02
  by_cases hff : ⌊h₁⌋ = ⌊h₂⌋
  · by_cases hint : ⌈h₁⌉ = ⌊h₁⌋
    · have hh1 : h₁ = (⌊h₁⌋ : ℚ) := by
        have hle := Int.floor_le h₁
        have hge := Int.le_ceil h₁
        rw [hint] at hge
        linarith
      have hzero : h₁ - (⌊h₁⌋ : ℚ) = 0 := by rw [← hh1]; ring
      have hlow := (interpAt_between hs hub2).1
      unfold interpAt
      rw [hzero, zero_mul, add_zero, hff]
      unfold interpAt at hlow
      exact hlow
    · have hc1 : ⌈h₁⌉ = ⌊h₁⌋ + 1 := by
        have hle := Int.ceil_le_floor_add_one h₁
        have hge := Int.floor_le_ceil h₁
        omega
      have hh1lt : (⌊h₁⌋ : ℚ) < h₁ := by
        rcases lt_or_eq_of_le (Int.floor_le h₁) with hlt | heq
        · exact hlt
        · exfalso
          apply hint
          rw [← heq]
          simp
      have hh2lt : (⌊h₂⌋ : ℚ) < h₂ := by
        have : ((⌊h₂⌋ : ℤ) : ℚ) = ((⌊h₁⌋ : ℤ) : ℚ) := by rw [hff]
        calc ((⌊h₂⌋ : ℤ) : ℚ) = ((⌊h₁⌋ : ℤ) : ℚ) := this
          _ < h₁ := hh1lt
          _ ≤ h₂ := h12
      have hc2 : ⌈h₂⌉ = ⌊h₂⌋ + 1 := by
        have hlt : ⌊h₂⌋ < ⌈h₂⌉ := Int.lt_ceil.mpr hh2lt
        have hle := Int.ceil_le_floor_add_one h₂
        omega
      have hba : s.getD (Int.toNat ⌊h₁⌋) 0
          ≤ s.getD (Int.toNat ⌈h₁⌉) 0 := by
        refine sorted_getD_mono hs ?_ hub1
        have := Int.floor_le_ceil h₁
        omega
      have ht12 : h₁ - (⌊h₁⌋ : ℚ) ≤ h₂ - (⌊h₂⌋ : ℚ) := by
        rw [← hff]
        linarith
      unfold interpAt
      rw [hc2, ← hff, ← hc1]
      have hmul := mul_le_mul_of_nonneg_right ht12
        (sub_nonneg.mpr hba)
      rw [← hff] at hmul
      linarith
  · have hfl12 : ⌊h₁⌋ < ⌊h₂⌋ := lt_of_le_of_ne (Int.floor_le_floor h12) hff
    have hstep1 := (interpAt_between hs hub1).2
    have hstep3 := (interpAt_between hs hub2).1
    have hmid : s.getD (Int.toNat ⌈h₁⌉) 0 ≤ s.getD (Int.toNat ⌊h₂⌋) 0 := by
      refine sorted_getD_mono hs ?_ ?_
      · have h1 := Int.ceil_le_floor_add_one h₁
        omega
      · have := Int.floor_le_ceil h₂
        omega
    linarith

/-- Helper for C9: the percentile is monotone in the percentile point. -/
theorem percentile_mono (x : ℚ) (xs : List ℚ) {p q : Nat} (hpq : p ≤ q)
    (hq : q ≤ 100) :
    (percentile (x :: xs) p).getD 0 ≤ (percentile (x :: xs) q).getD 0 := by
  have hne : (x :: xs).isEmpty = false := rfl
  simp only [percentile, hne, Bool.false_eq_true, if_false, Option.getD_some]
  have hn1 : (1 : Nat) ≤ (x :: xs).length := by simp
  have hcast : (((x :: xs).length - 1 : Nat) : ℚ)
      = ((x :: xs).length : ℚ) - 1 := by
    push_cast [Nat.cast_sub hn1]
    ring
  refine interpAt_mono (sortedOf_sorted _) ?_ ?_ ?_
  · unfold hIndex
    positivity
  · unfold hIndex
    have hm : (((x :: xs).length - 1 : Nat) : ℚ) * (p : ℚ)
        ≤ (((x :: xs).length - 1 : Nat) : ℚ) * (q : ℚ) :=
      mul_le_mul_of_nonneg_left (by exact_mod_cast hpq) (by positivity)
    exact (div_le_div_iff_of_pos_right (by norm_num : (0:ℚ) < 100)).mpr hm
  · unfold hIndex
    have hmq : (q : ℚ) ≤ 100 := by exact_mod_cast hq
    have hnn : (0 : ℚ) ≤ ((x :: xs).length : ℚ) - 1 := by
      have : (1 : ℚ) ≤ ((x :: xs).length : ℚ) := by exact_mod_cast hn1
      linarith
    rw [sortedOf_length]
    rw [div_le_iff₀ (by norm_num : (0:ℚ) < 100), hcast]
    exact mul_le_mul_of_nonneg_left hmq hnn

/-- C9: on every non-empty sample the six percentile points the engine
computes are monotone: p(0) ≤ p(25) ≤ p(50) ≤ p(75) ≤ p(95) ≤ p(100). -/
theorem c9_percentile_monotone (x : ℚ) (xs : List ℚ) :
    (percentile (x :: xs) 0).getD 0 ≤ (percentile (x :: xs) 25).getD 0
      ∧ (percentile (x :: xs) 25).getD 0 ≤ (percentile (x :: xs) 50).getD 0
      ∧ (percentile (x :: xs) 50).getD 0 ≤ (percentile (x :: xs) 75).getD 0
      ∧ (percentile (x :: xs) 75).getD 0 ≤ (percentile (x :: xs) 95).getD 0
      ∧ (percentile (x :: xs) 95).getD 0
          ≤ (percentile (x :: xs) 100).getD 0 :=
  ⟨percentile_mono x xs (by omega) (by omega),
    percentile_mono x xs (by omega) (by omega),
    percentile_mono x xs (by omega) (by omega),
    percentile_mono x xs (by omega) (by omega),
    percentile_mono x xs (by omega) (by omega)⟩

/-! ### C10: the u64::MAX fast path of a fresh tracker -/

theorem lookup_filter_ne {β : Type} (l : List (Nat × β)) (e : Nat)
    {k : Nat} (h : k ≠ e) :
    ((l.filter (fun x => x.1 ≠ e)).lookup k) = l.lookup k := by
  induction l with
  | nil => rfl
  | cons x rest ih =>
      rcases x with ⟨x1, x2⟩
      simp only [ne_eq, decide_not] at ih ⊢
      rw [List.filter_cons]
      by_cases hx : x1 = e
      · subst hx
        have hbeq : (k == x1) = false := beq_false_of_ne h
        simp [List.lookup_cons, hbeq, ih]
      · have hpred : (!decide ((x1, x2).1 = e)) = true := by simp [hx]
        rw [hpred]
        simp [List.lookup_cons, ih]

theorem ledgerSet_lookup_ne (l : PriorityFeesBySlot) (s : Slot)
    (v : SlotPriorityFees) {k : Slot} (h : k ≠ s) :
    (ledgerSet l s v).lookup k = l.lookup k := by
  induction l with
  | nil => rfl
  | cons x rest ih =>
      rcases x with ⟨x1, x2⟩
      simp only [ledgerSet, List.map] at ih ⊢
      by_cases hx : x1 = s
      · subst hx
        have hbeq : (k == x1) = false := beq_false_of_ne h
        simp [List.lookup_cons, hbeq, ih]
      · simp [if_neg hx, List.lookup_cons, ih]

theorem lookup_append_isSome {α β : Type} [BEq α] [LawfulBEq α]
    (l : List (α × β)) (x : α × β) {k : α} (h : (l.lookup k).isSome) :
    ((l ++ [x]).lookup k).isSome := by
  obtain ⟨v, hv⟩ := Option.isSome_iff_exists.mp h
  rw [List.lookup_append, hv]
  rfl

theorem cbAdd_fst_subset (cap : Nat) (q : List Slot) (s : Slot) :
    (cbAdd cap q s).1 ⊆ q ++ [s] := by
  unfold cbAdd
  by_cases h : q.length < cap
  · simp [h]
  · simp only [if_neg h]
    cases q with
    | nil => simp
    | cons x xs =>
        simp only [List.cons_append]
        exact List.subset_cons_self _ _

theorem cbAdd_snd_mem (cap : Nat) (q : List Slot) (s : Slot) {e : Slot}
    (h : (cbAdd cap q s).2 = some e) : e ∈ q ++ [s] := by
  unfold cbAdd at h
  by_cases hc : q.length < cap
  · simp [hc] at h
  · simp only [if_neg hc] at h
    cases q with
    | nil =>
        simp at h
        simp [h]
    | cons x xs =>
        simp only [List.cons_append] at h
        have : x = e := by simpa using h
        subst this
        simp

theorem push_pop_new_maxslot (cap : Nat) :
    (SlotCache.new cap).push_pop U64MAX = (SlotCache.new cap, none) := by
  unfold SlotCache.push_pop
  simp [SlotCache.new]

theorem push_new_maxslot (cap : Nat) (accounts : List Account) (fee : Nat)
    (is_vote : Bool) :
    (PriorityFeeTracker.new cap).push_priority_fee_for_txn U64MAX accounts
        fee is_vote
      = { priority_fees :=
            [(U64MAX, SlotPriorityFees.new U64MAX accounts fee is_vote)]
          slot_cache := SlotCache.new cap } := by
  unfold PriorityFeeTracker.push_priority_fee_for_txn
  rw [show (PriorityFeeTracker.new cap).slot_cache = SlotCache.new cap from
    rfl, push_pop_new_maxslot cap]
  simp [PriorityFeeTracker.new]

/-- C10: on a freshly constructed tracker the first push for slot
u64::MAX takes the slot cache's fast path (last_seen_slot is initialized
to u64::MAX): the slot cache is left untouched (live_slot_count stays 0
and live_slots does not contain u64::MAX) while a ledger record for
u64::MAX is created; as long as u64::MAX is not in the FIFO queue, a later
push of any other slot keeps it out of the queue and keeps its ledger
record alive (only an evicted queue member is removed); concretely, with
capacity 1 the ledger then holds one more record than the window. -/
theorem c10_maxslot_fastpath :
    (∀ (cap : Nat) (accounts : List Account) (fee : Nat) (is_vote : Bool),
        ((PriorityFeeTracker.new cap).push_priority_fee_for_txn U64MAX
            accounts fee is_vote).slot_cache = SlotCache.new cap
          ∧ ((PriorityFeeTracker.new cap).push_priority_fee_for_txn U64MAX
              accounts fee is_vote).slot_cache.len = 0
          ∧ U64MAX ∉ ((PriorityFeeTracker.new cap).push_priority_fee_for_txn
              U64MAX accounts fee is_vote).slot_cache.copy_slots
          ∧ (((PriorityFeeTracker.new cap).push_priority_fee_for_txn U64MAX
              accounts fee is_vote).priority_fees.lookup U64MAX).isSome)
      ∧ (∀ (t : PriorityFeeTracker) (s : Slot) (accounts : List Account)
            (fee : Nat) (is_vote : Bool),
          U64MAX ∉ t.slot_cache.slot_queue → s ≠ U64MAX →
            U64MAX ∉ (t.push_priority_fee_for_txn s accounts fee
                is_vote).slot_cache.slot_queue
              ∧ ((t.priority_fees.lookup U64MAX).isSome →
                  ((t.push_priority_fee_for_txn s accounts fee
                    is_vote).priority_fees.lookup U64MAX).isSome))
      ∧ ((runTracker 1 [⟨U64MAX, [], 1, false⟩,
            ⟨5, [], 2, false⟩]).priority_fees.length = 2
          ∧ (runTracker 1 [⟨U64MAX, [], 1, false⟩,
              ⟨5, [], 2, false⟩]).slot_cache.len = 1) := by
  refine ⟨?_, ?_, by decide, by decide⟩
  · intro cap accounts fee is_vote
    rw [push_new_maxslot cap accounts fee is_vote]
    refine ⟨rfl, rfl, ?_, ?_⟩
    · simp [SlotCache.copy_slots, SlotCache.new]
    · simp
  · intro t s accounts fee is_vote hq hs
    have hcache : (t.push_priority_fee_for_txn s accounts fee
        is_vote).slot_cache = (t.slot_cache.push_pop s).1 := rfl
    have hqueue : U64MAX ∉ ((t.slot_cache.push_pop s).1).slot_queue := by
      unfold SlotCache.push_pop
      by_cases h1 : t.slot_cache.last_seen_slot = s
      · simpa [h1] using hq
      · by_cases h2 : s ∈ t.slot_cache.slot_set
        · simpa [h1, h2] using hq
        · simp only [if_neg h1, if_neg h2]
          intro hmem
          rcases List.mem_append.mp
            (cbAdd_fst_subset t.slot_cache.capacity
              t.slot_cache.slot_queue s hmem) with hmem | hmem
          · exact hq hmem
          · exact hs (Eq.symm (by simpa using hmem))
    refine ⟨by rw [hcache]; exact hqueue, ?_⟩
    intro hsome
    have hfees0 : ∀ oldest,
        (t.slot_cache.push_pop s).2 = some oldest →
        ((ledgerRemove t.priority_fees oldest).lookup U64MAX).isSome := by
      intro oldest hev
      have hne : U64MAX ≠ oldest := by
        intro he
        subst he
        have hmem : (U64MAX : Slot) ∈ t.slot_cache.slot_queue ++ [s] := by
          unfold SlotCache.push_pop at hev
          by_cases h1 : t.slot_cache.last_seen_slot = s
          · simp [h1] at hev
          · by_cases h2 : s ∈ t.slot_cache.slot_set
            · simp [h1, h2] at hev
            · simp only [if_neg h1, if_neg h2] at hev
              exact cbAdd_snd_mem _ _ _ hev
        rcases List.mem_append.mp hmem with hmem | hmem
        · exact hq hmem
        · exact hs (Eq.symm (by simpa using hmem))
      rw [ledgerRemove, lookup_filter_ne _ _ hne]
      exact hsome
    rcases hev : (t.slot_cache.push_pop s).2 with _ | oldest
    · simp only [PriorityFeeTracker.push_priority_fee_for_txn, hev]
      rcases hlk : t.priority_fees.lookup s with _ | sf
      · simp only [hlk]
        exact lookup_append_isSome _ _ hsome
      · simp only [hlk]
        rw [ledgerSet_lookup_ne _ _ _ (Ne.symm hs)]
        exact hsome
    · simp only [PriorityFeeTracker.push_priority_fee_for_txn, hev]
      have h0 := hfees0 oldest hev
      rcases hlk : (ledgerRemove t.priority_fees oldest).lookup s with _ | sf
      · simp only [hlk]
        exact lookup_append_isSome _ _ h0
      · simp only [hlk]
        rw [ledgerSet_lookup_ne _ _ _ (Ne.symm hs)]
        exact h0

/-- C10 witness: the persistence clause applied after the fast-path push:
with capacity 2, push u64::MAX (fast path) and then slot 7; u64::MAX stays
out of the FIFO queue and its ledger record survives. -/
theorem c10_maxslot_fastpath_witness :
    U64MAX ∉ (((PriorityFeeTracker.new 2).push_priority_fee_for_txn U64MAX
        [] 1 false).push_priority_fee_for_txn 7 [] 3
          false).slot_cache.slot_queue
      ∧ ((((PriorityFeeTracker.new 2).push_priority_fee_for_txn U64MAX [] 1
          false).push_priority_fee_for_txn 7 [] 3
            false).priority_fees.lookup U64MAX).isSome := by
  have h := c10_maxslot_fastpath.2.1
    ((PriorityFeeTracker.new 2).push_priority_fee_for_txn U64MAX [] 1 false)
    7 [] 3 false (by decide) (by decide)
  exact ⟨h.1, h.2 (by decide)⟩

/-! ### C7: what a live slot record contains

A ghost ledger records, for every live slot, the sequence of transactions
ingested for it since its record was created; it makes the same cache and
eviction decisions as the tracker, so the tracker's record is the fold of
that history. -/

/-- The ghost ledger: per live slot, the record's transaction history. -/
abbrev TxnLedger := List (Slot × List Txn)

/-- The ghost image of one push: same `push_pop` decision, same eviction,
same create-or-update split, but the record is the raw transaction list. -/
def ghostPush (st : SlotCache × TxnLedger) (τ : Txn) :
    SlotCache × TxnLedger :=
  let ce := st.1.push_pop τ.slot
  let l0 : TxnLedger := match ce.2 with
    | some oldest => st.2.filter (fun x => x.1 ≠ oldest)
    | none => st.2
  let l1 : TxnLedger := match l0.lookup τ.slot with
    | some _ =>
        l0.map (fun x => if x.1 = τ.slot then (τ.slot, x.2 ++ [τ]) else x)
    | none => l0 ++ [(τ.slot, [τ])]
  (ce.1, l1)

/-- The ghost state after a sequence of pushes. -/
def runGhost (cap : Nat) (ts : List Txn) : SlotCache × TxnLedger :=
  ts.foldl ghostPush (SlotCache.new cap, [])

/-- The record a history builds: the first transaction creates it, the
rest are applied by the occupied-entry update. -/
def buildRecord (slot : Slot) (τ0 : Txn) (rest : List Txn) :
    SlotPriorityFees :=
  rest.foldl (fun sf τ => sf.addTxn τ.accounts τ.fee τ.is_vote)
    (SlotPriorityFees.new slot τ0.accounts τ0.fee τ0.is_vote)

/-- The record value of a (nonempty) history; a junk record for []. -/
def absVal (slot : Slot) (ts : List Txn) : SlotPriorityFees :=
  match ts with
  | [] => SlotPriorityFees.new slot [] 0 false
  | τ0 :: rest => buildRecord slot τ0 rest

/-- The ledger a ghost ledger denotes. -/
def absLedger (g : TxnLedger) : PriorityFeesBySlot :=
  g.map (fun e => (e.1, absVal e.1 e.2))

/-- The ghost invariant relating a tracker to its ghost state. -/
def GhostOK (t : PriorityFeeTracker) (g : SlotCache × TxnLedger) : Prop :=
  t.slot_cache = g.1 ∧ t.priority_fees = absLedger g.2
    ∧ (g.2.map Prod.fst).Nodup ∧ ∀ e ∈ g.2, e.2 ≠ []

theorem absLedger_lookup (g : TxnLedger) (s : Slot) :
    (absLedger g).lookup s = (g.lookup s).map (absVal s) := by
  induction g with
  | nil => rfl
  | cons e rest ih =>
      rcases e with ⟨k, ts⟩
      by_cases hk : s = k
      · subst hk
        simp [absLedger]
      · have hbeq : (s == k) = false := beq_false_of_ne hk
        simp only [absLedger, List.map, List.lookup_cons, hbeq]
        exact ih

theorem absLedger_filter (g : TxnLedger) (e : Slot) :
    ledgerRemove (absLedger g) e = absLedger (g.filter (fun x => x.1 ≠ e)) := by
  induction g with
  | nil => rfl
  | cons x rest ih =>
      rcases x with ⟨k, ts⟩
      simp only [absLedger, List.map, ledgerRemove, List.filter_cons,
        ne_eq, decide_not] at ih ⊢
      by_cases hk : k = e
      · subst hk
        simpa using ih
      · simp only [hk, decide_False, Bool.not_false, if_true, List.map]
        rw [ih]

theorem ledgerSet_of_lookup_none (l : PriorityFeesBySlot) (s : Slot)
    (v : SlotPriorityFees) (h : l.lookup s = none) : ledgerSet l s v = l := by
  have hall := List.lookup_eq_none_iff.mp h
  unfold ledgerSet
  have hcong : ∀ e ∈ l, (if e.1 = s then (s, v) else e) = id e := by
    intro e he
    have hne : s ≠ e.1 := by simpa using hall e he
    rw [if_neg (fun hc => hne hc.symm)]
    rfl
  rw [List.map_congr_left hcong, List.map_id]

theorem ghost_update_of_lookup_none (l : TxnLedger) (s : Slot) (τ : Txn)
    (h : l.lookup s = none) :
    l.map (fun x => if x.1 = s then (s, x.2 ++ [τ]) else x) = l := by
  have hall := List.lookup_eq_none_iff.mp h
  have hcong : ∀ e ∈ l, (if e.1 = s then (s, e.2 ++ [τ]) else e) = id e := by
    intro e he
    have hne : s ≠ e.1 := by simpa using hall e he
    rw [if_neg (fun hc => hne hc.symm)]
    rfl
  rw [List.map_congr_left hcong, List.map_id]

theorem buildRecord_append (slot : Slot) (τ0 : Txn) (rest : List Txn)
    (τ : Txn) :
    buildRecord slot τ0 (rest ++ [τ])
      = (buildRecord slot τ0 rest).addTxn τ.accounts τ.fee τ.is_vote := by
  simp [buildRecord, List.foldl_append]

theorem absVal_append {ts : List Txn} (hne : ts ≠ []) (slot : Slot)
    (τ : Txn) :
    absVal slot (ts ++ [τ])
      = (absVal slot ts).addTxn τ.accounts τ.fee τ.is_vote := by
  cases ts with
  | nil => cases hne rfl
  | cons τ0 rest => simp [absVal, buildRecord_append]

theorem ghost_keys_nodup_tail {k : Slot} {ts : List Txn} {rest : TxnLedger}
    (hnd : (((k, ts) :: rest).map Prod.fst).Nodup) :
    k ∉ rest.map Prod.fst ∧ (rest.map Prod.fst).Nodup := by
  simpa using hnd

theorem absLedger_set (g : TxnLedger) (hnd : (g.map Prod.fst).Nodup)
    (hne : ∀ e ∈ g, e.2 ≠ []) {slot : Slot} {ts : List Txn}
    (h : g.lookup slot = some ts) (τ : Txn) :
    ledgerSet (absLedger g) slot
        ((absVal slot ts).addTxn τ.accounts τ.fee τ.is_vote)
      = absLedger
          (g.map (fun x => if x.1 = slot then (slot, x.2 ++ [τ]) else x)) := by
  induction g with
  | nil => cases h
  | cons x rest ih =>
      rcases x with ⟨k, vs⟩
      by_cases hk : k = slot
      · subst hk
        have hts : vs = ts := by
          have : List.lookup k ((k, vs) :: rest) = some vs :=
            List.lookup_cons_self
          rw [h] at this
          exact (Option.some.inj this).symm
        subst hts
        have hkeys := ghost_keys_nodup_tail hnd
        have hrest_none : rest.lookup k = none := by
          rw [List.lookup_eq_none_iff]
          intro p hp
          have hpm : p.1 ∈ rest.map Prod.fst := List.mem_map_of_mem _ hp
          simp only [bne_iff_ne, ne_eq]
          intro hc
          exact hkeys.1 (by rw [hc]; exact hpm)
        have habs_none : (absLedger rest).lookup k = none := by
          rw [absLedger_lookup, hrest_none]
          rfl
        have hvs_ne : vs ≠ [] := hne (k, vs) (List.mem_cons_self _ _)
        have hnew := (absVal_append hvs_ne k τ).symm
        have h1 : ledgerSet (absLedger rest) k
            ((absVal k vs).addTxn τ.accounts τ.fee τ.is_vote)
            = absLedger rest := ledgerSet_of_lookup_none _ _ _ habs_none
        have h2 : rest.map (fun x => if x.1 = k then (k, x.2 ++ [τ]) else x)
            = rest := ghost_update_of_lookup_none _ _ _ hrest_none
        simp only [ledgerSet, absLedger, List.map] at h1 h2 ⊢
        simp [hnew, h1, h2]
        intro a b hmem hak
        exfalso
        apply hkeys.1
        rw [← hak]
        exact List.mem_map_of_mem _ hmem
      · have hbeq : (slot == k) = false :=
          beq_false_of_ne (fun hc => hk hc.symm)
        have h' : rest.lookup slot = some ts := by
          simpa [List.lookup_cons, hbeq] using h
        have hkeys : (rest.map Prod.fst).Nodup := by
          simpa using hnd.of_cons
        have hne' : ∀ e ∈ rest, e.2 ≠ [] :=
          fun e he => hne e (List.mem_cons_of_mem _ he)
        have := ih hkeys hne' h'
        simp only [absLedger, List.map, ledgerSet, if_neg hk] at this ⊢
        rw [this]

theorem ghost_step {t : PriorityFeeTracker} {g : SlotCache × TxnLedger}
    (h : GhostOK t g) (τ : Txn) : GhostOK (pushTxn t τ) (ghostPush g τ) := by
  obtain ⟨hc, hl, hnd, hne⟩ := h
  have hcache : (pushTxn t τ).slot_cache = (ghostPush g τ).1 := by
    rw [pushTxn, push_slot_cache, hc]
    rfl
  refine ⟨hcache, ?_⟩
  rcases hev : (g.1.push_pop τ.slot).2 with _ | oldest
  · have hstep : (pushTxn t τ).priority_fees
        = (match (absLedger g.2).lookup τ.slot with
           | some sf => ledgerSet (absLedger g.2) τ.slot
               (sf.addTxn τ.accounts τ.fee τ.is_vote)
           | none => absLedger g.2
               ++ [(τ.slot, SlotPriorityFees.new τ.slot τ.accounts τ.fee
                     τ.is_vote)]) := by
      simp only [pushTxn, PriorityFeeTracker.push_priority_fee_for_txn, hc,
        hev, hl]
    have hg2 : (ghostPush g τ).2
        = (match g.2.lookup τ.slot with
           | some _ => g.2.map
               (fun x => if x.1 = τ.slot then (τ.slot, x.2 ++ [τ]) else x)
           | none => g.2 ++ [(τ.slot, [τ])]) := by
      simp only [ghostPush, hev]
    rcases hlk : g.2.lookup τ.slot with _ | ts
    · have habs : (absLedger g.2).lookup τ.slot = none := by
        rw [absLedger_lookup, hlk]
        rfl
      refine ⟨?_, ?_, ?_⟩
      · rw [hstep, habs, hg2, hlk]
        simp only [absLedger, List.map_append, List.map]
        rfl
      · rw [hg2, hlk]
        have hnotin : τ.slot ∉ g.2.map Prod.fst :=
          (lookup_eq_none_iff g.2 τ.slot).mp hlk
        rw [List.map_append]
        have hsing : List.map Prod.fst [((τ.slot : Slot), [τ])] = [τ.slot] :=
          rfl
        rw [hsing]
        exact ((List.perm_append_singleton τ.slot
          (g.2.map Prod.fst)).nodup_iff).mpr
          (List.nodup_cons.mpr ⟨hnotin, hnd⟩)
      · rw [hg2, hlk]
        intro e he
        rcases List.mem_append.mp he with he | he
        · exact hne e he
        · have he2 : e = (τ.slot, [τ]) := by simpa using he
          rw [he2]
          simp
    · refine ⟨?_, ?_, ?_⟩
      · have habs : (absLedger g.2).lookup τ.slot
            = some (absVal τ.slot ts) := by
          rw [absLedger_lookup, hlk]
          rfl
        rw [hstep, habs, hg2, hlk]
        exact absLedger_set g.2 hnd hne hlk τ
      · rw [hg2, hlk]
        have hkeys : (g.2.map
            (fun x => if x.1 = τ.slot then (τ.slot, x.2 ++ [τ])
              else x)).map Prod.fst = g.2.map Prod.fst := by
          rw [List.map_map]
          refine List.map_congr_left ?_
          intro e _
          by_cases hk : e.1 = τ.slot
          · simp [Function.comp, hk]
          · simp [Function.comp, hk]
        rw [hkeys]
        exact hnd
      · rw [hg2, hlk]
        intro e he
        rcases List.mem_map.mp he with ⟨x, hx, hxe⟩
        by_cases hk : x.1 = τ.slot
        · rw [← hxe]
          simp [hk]
        · rw [← hxe]
          simp only [hk, if_false]
          exact hne x hx
  · have hfees0 : ledgerRemove (absLedger g.2) oldest
        = absLedger (g.2.filter (fun x => x.1 ≠ oldest)) :=
      absLedger_filter g.2 oldest
    have hnd0 : ((g.2.filter
        (fun x => x.1 ≠ oldest)).map Prod.fst).Nodup :=
      ((List.filter_sublist g.2).map Prod.fst).nodup hnd
    have hne0 : ∀ e ∈ g.2.filter (fun x => x.1 ≠ oldest), e.2 ≠ [] :=
      fun e he => hne e (List.mem_of_mem_filter he)
    have hstep : (pushTxn t τ).priority_fees
        = (match (absLedger (g.2.filter
              (fun x => x.1 ≠ oldest))).lookup τ.slot with
           | some sf => ledgerSet
               (absLedger (g.2.filter (fun x => x.1 ≠ oldest))) τ.slot
               (sf.addTxn τ.accounts τ.fee τ.is_vote)
           | none => absLedger (g.2.filter (fun x => x.1 ≠ oldest))
               ++ [(τ.slot, SlotPriorityFees.new τ.slot τ.accounts τ.fee
                     τ.is_vote)]) := by
      simp only [pushTxn, PriorityFeeTracker.push_priority_fee_for_txn, hc,
        hev, hl, hfees0]
    have hg2 : (ghostPush g τ).2
        = (match (g.2.filter (fun x => x.1 ≠ oldest)).lookup τ.slot with
           | some _ => (g.2.filter (fun x => x.1 ≠ oldest)).map
               (fun x => if x.1 = τ.slot then (τ.slot, x.2 ++ [τ]) else x)
           | none => g.2.filter (fun x => x.1 ≠ oldest)
               ++ [(τ.slot, [τ])]) := by
      simp only [ghostPush, hev]
    rcases hlk : (g.2.filter (fun x => x.1 ≠ oldest)).lookup τ.slot
      with _ | ts
    · have habs : (absLedger (g.2.filter
          (fun x => x.1 ≠ oldest))).lookup τ.slot = none := by
        rw [absLedger_lookup, hlk]
        rfl
      refine ⟨?_, ?_, ?_⟩
      · rw [hstep, habs, hg2, hlk]
        simp only [absLedger, List.map_append, List.map]
        rfl
      · rw [hg2, hlk]
        have hnotin : τ.slot ∉ (g.2.filter
            (fun x => x.1 ≠ oldest)).map Prod.fst :=
          (lookup_eq_none_iff _ τ.slot).mp hlk
        rw [List.map_append]
        have hsing : List.map Prod.fst [((τ.slot : Slot), [τ])] = [τ.slot] :=
          rfl
        rw [hsing]
        exact ((List.perm_append_singleton τ.slot _).nodup_iff).mpr
          (List.nodup_cons.mpr ⟨hnotin, hnd0⟩)
      · rw [hg2, hlk]
        intro e he
        rcases List.mem_append.mp he with he | he
        · exact hne0 e he
        · have he2 : e = (τ.slot, [τ]) := by simpa using he
          rw [he2]
          simp
    · refine ⟨?_, ?_, ?_⟩
      · have habs : (absLedger (g.2.filter
            (fun x => x.1 ≠ oldest))).lookup τ.slot
            = some (absVal τ.slot ts) := by
          rw [absLedger_lookup, hlk]
          rfl
        rw [hstep, habs, hg2, hlk]
        exact absLedger_set _ hnd0 hne0 hlk τ
      · rw [hg2, hlk]
        have hkeys : (((g.2.filter (fun x => x.1 ≠ oldest)).map
            (fun x => if x.1 = τ.slot then (τ.slot, x.2 ++ [τ])
              else x)).map Prod.fst) = (g.2.filter
                (fun x => x.1 ≠ oldest)).map Prod.fst := by
          rw [List.map_map]
          refine List.map_congr_left ?_
          intro e _
          by_cases hk : e.1 = τ.slot
          · simp [Function.comp, hk]
          · simp [Function.comp, hk]
        rw [hkeys]
        exact hnd0
      · rw [hg2, hlk]
        intro e he
        rcases List.mem_map.mp he with ⟨x, hx, hxe⟩
        by_cases hk : x.1 = τ.slot
        · rw [← hxe]
          simp [hk]
        · rw [← hxe]
          simp only [hk, if_false]
          exact hne0 x hx

theorem ghostPush_slots {g : SlotCache × TxnLedger} (τ : Txn)
    (h : ∀ e ∈ g.2, ∀ x ∈ e.2, x.slot = e.1) :
    ∀ e ∈ (ghostPush g τ).2, ∀ x ∈ e.2, x.slot = e.1 := by
  have hsub : ∀ (l0 : TxnLedger), (∀ e ∈ l0, ∀ x ∈ e.2, x.slot = e.1) →
      ∀ e ∈ (match l0.lookup τ.slot with
        | some _ => l0.map
            (fun (x : Slot × List Txn) =>
              if x.1 = τ.slot then (τ.slot, x.2 ++ [τ]) else x)
        | none => l0 ++ [(τ.slot, [τ])]), ∀ x ∈ e.2, x.slot = e.1 := by
    intro l0 h0 e he
    rcases hlk : l0.lookup τ.slot with _ | ts
    · simp only [hlk] at he
      rcases List.mem_append.mp he with he | he
      · exact h0 e he
      · have he2 : e = (τ.slot, [τ]) := by simpa using he
        subst he2
        intro x hx
        have hx2 : x = τ := by simpa using hx
        rw [hx2]
    · simp only [hlk] at he
      rcases List.mem_map.mp he with ⟨y, hy, hye⟩
      by_cases hk : y.1 = τ.slot
      · rw [if_pos hk] at hye
        rw [← hye]
        intro x hx
        rcases List.mem_append.mp hx with hx | hx
        · exact (h0 y hy x hx).trans hk
        · have hx2 : x = τ := by simpa using hx
          rw [hx2]
      · rw [if_neg hk] at hye
        rw [← hye]
        exact h0 y hy
  intro e he
  rcases hev : (g.1.push_pop τ.slot).2 with _ | oldest
  · have hg2 : (ghostPush g τ).2
        = (match g.2.lookup τ.slot with
           | some _ => g.2.map
               (fun x => if x.1 = τ.slot then (τ.slot, x.2 ++ [τ]) else x)
           | none => g.2 ++ [(τ.slot, [τ])]) := by
      simp only [ghostPush, hev]
    rw [hg2] at he
    exact hsub g.2 h e he
  · have hg2 : (ghostPush g τ).2
        = (match (g.2.filter (fun x => x.1 ≠ oldest)).lookup τ.slot with
           | some _ => (g.2.filter (fun x => x.1 ≠ oldest)).map
               (fun x => if x.1 = τ.slot then (τ.slot, x.2 ++ [τ]) else x)
           | none => g.2.filter (fun x => x.1 ≠ oldest)
               ++ [(τ.slot, [τ])]) := by
      simp only [ghostPush, hev]
    rw [hg2] at he
    exact hsub _ (fun e he => h e (List.mem_of_mem_filter he)) e he

theorem runGhost_slots (cap : Nat) (ts : List Txn) :
    ∀ e ∈ (runGhost cap ts).2, ∀ x ∈ e.2, x.slot = e.1 := by
  have hgen : ∀ (l : List Txn) (g : SlotCache × TxnLedger),
      (∀ e ∈ g.2, ∀ x ∈ e.2, x.slot = e.1) →
      ∀ e ∈ (l.foldl ghostPush g).2, ∀ x ∈ e.2, x.slot = e.1 := by
    intro l
    induction l with
    | nil => exact fun g h => h
    | cons τ rest ih => exact fun g h => ih _ (ghostPush_slots τ h)
  exact hgen ts _ (fun e he => absurd he (List.not_mem_nil e))

theorem runGhost_ok (cap : Nat) (ts : List Txn) :
    GhostOK (runTracker cap ts) (runGhost cap ts) := by
  have hgen : ∀ (l : List Txn) (t : PriorityFeeTracker)
      (g : SlotCache × TxnLedger), GhostOK t g →
      GhostOK (l.foldl pushTxn t) (l.foldl ghostPush g) := by
    intro l
    induction l with
    | nil => exact fun t g h => h
    | cons τ rest ih => exact fun t g h => ih _ _ (ghost_step h τ)
  exact hgen ts _ _ ⟨rfl, rfl, List.nodup_nil, fun e he => absurd he
    (List.not_mem_nil e)⟩

/-- Total number of fee entries stored in a `Fees` pair. -/
def Fees.total (f : Fees) : Nat :=
  f.non_vote_fees.length + f.vote_fees.length

/-- Number of fee entries a record holds for an account. -/
def feeEntryCount (sf : SlotPriorityFees) (a : Account) : Nat :=
  match sf.account_fees.lookup a with
  | some f => f.total
  | none => 0

theorem Fees.new_total (fee : ℚ) (iv : Bool) : (Fees.new fee iv).total = 1 := by
  cases iv <;> rfl

theorem Fees.add_fee_total (f : Fees) (fee : ℚ) (iv : Bool) :
    (f.add_fee fee iv).total = f.total + 1 := by
  cases iv <;> simp [Fees.add_fee, Fees.total] <;> omega

theorem upsert_lookup_self (m : List (Account × Fees)) (a : Account)
    (f : Fees → Fees) (d : Fees) :
    (upsert m a f d).lookup a
      = some (match m.lookup a with | some v => f v | none => d) := by
  induction m with
  | nil => simp [upsert, List.lookup]
  | cons e rest ih =>
      rcases e with ⟨b, v⟩
      by_cases hb : b = a
      · subst hb
        simp [upsert, List.lookup]
      · have h1 : (a == b) = false := beq_false_of_ne (Ne.symm hb)
        simp only [upsert, if_neg hb, List.lookup_cons, h1, ih]

theorem upsert_lookup_ne (m : List (Account × Fees)) (k q : Account)
    (hqk : q ≠ k) (f : Fees → Fees) (d : Fees) :
    (upsert m k f d).lookup q = m.lookup q := by
  induction m with
  | nil => simp [upsert, List.lookup, beq_false_of_ne hqk]
  | cons e rest ih =>
      rcases e with ⟨c, v⟩
      by_cases hc : c = k
      · subst hc
        simp [upsert, List.lookup_cons, beq_false_of_ne hqk]
      · simp only [upsert, if_neg hc, List.lookup_cons]
        cases hbc : q == c
        · exact ih
        · rfl

theorem foldSet_lookup (accounts : List Account) (fees : Fees)
    (m : List (Account × Fees)) (a : Account) :
    (accounts.foldl (fun m b => setFees m b fees) m).lookup a
      = if a ∈ accounts then some fees else m.lookup a := by
  induction accounts generalizing m with
  | nil => simp
  | cons b rest ih =>
      rw [List.foldl_cons, ih]
      by_cases hmem : a ∈ rest
      · simp [hmem, List.mem_cons]
      · simp only [hmem, if_false]
        by_cases hab : a = b
        · subst hab
          rw [setFees, upsert_lookup_self]
          simp only [List.mem_cons, true_or, if_true]
          cases m.lookup a <;> rfl
        · rw [setFees, upsert_lookup_ne m b a hab]
          simp [List.mem_cons, hab, hmem]

theorem foldUpsert_count (accounts : List Account) (fee : ℚ) (iv : Bool)
    (m : List (Account × Fees)) (a : Account) :
    (match (accounts.foldl
        (fun m b => upsert m b (fun f => f.add_fee fee iv)
          (Fees.new fee iv)) m).lookup a with
      | some f => f.total
      | none => 0)
      = (match m.lookup a with | some f => f.total | none => 0)
          + accounts.count a := by
  induction accounts generalizing m with
  | nil => simp
  | cons b rest ih =>
      rw [List.foldl_cons, ih]
      by_cases hab : a = b
      · subst hab
        rw [upsert_lookup_self]
        have hcnt : (a :: rest).count a = rest.count a + 1 := by
          simp [List.count_cons]
        rw [hcnt]
        rcases hm : m.lookup a with _ | val
        · show (Fees.new fee iv).total + rest.count a
              = 0 + (rest.count a + 1)
          rw [Fees.new_total]
          omega
        · show (val.add_fee fee iv).total + rest.count a
              = val.total + (rest.count a + 1)
          rw [Fees.add_fee_total]
          omega
      · rw [upsert_lookup_ne m b a hab]
        have hcnt : (b :: rest).count a = rest.count a := by
          simp [List.count_cons, hab]
        rw [hcnt]

theorem new_feeEntryCount (slot : Slot) (accounts : List Account)
    (fee : Nat) (iv : Bool) (a : Account) :
    feeEntryCount (SlotPriorityFees.new slot accounts fee iv) a
      = if a ∈ accounts then 1 else 0 := by
  simp only [feeEntryCount, SlotPriorityFees.new]
  rw [foldSet_lookup]
  by_cases hm : a ∈ accounts
  · simp [hm, Fees.new_total]
  · simp [hm, List.lookup]

theorem addTxn_feeEntryCount (sf : SlotPriorityFees)
    (accounts : List Account) (fee : Nat) (iv : Bool) (a : Account) :
    feeEntryCount (sf.addTxn accounts fee iv) a
      = feeEntryCount sf a + accounts.count a := by
  simp only [feeEntryCount, SlotPriorityFees.addTxn]
  exact foldUpsert_count accounts (fee : ℚ) iv sf.account_fees a

theorem foldAdd_feeEntryCount (rest : List Txn) (sf : SlotPriorityFees)
    (a : Account) :
    feeEntryCount (rest.foldl
        (fun sf τ => sf.addTxn τ.accounts τ.fee τ.is_vote) sf) a
      = feeEntryCount sf a
          + (rest.map (fun τ => τ.accounts.count a)).sum := by
  induction rest generalizing sf with
  | nil => simp
  | cons τ rs ih =>
      rw [List.foldl_cons, ih, addTxn_feeEntryCount]
      simp only [List.map_cons, List.sum_cons]
      omega

theorem buildRecord_feeEntryCount (slot : Slot) (τ0 : Txn)
    (rest : List Txn) (a : Account) :
    feeEntryCount (buildRecord slot τ0 rest) a
      = (if a ∈ τ0.accounts then 1 else 0)
          + (rest.map (fun τ => τ.accounts.count a)).sum := by
  rw [buildRecord, foldAdd_feeEntryCount, new_feeEntryCount]

theorem foldAdd_fees (rest : List Txn) (sf : SlotPriorityFees) :
    (rest.foldl (fun sf τ => sf.addTxn τ.accounts τ.fee τ.is_vote)
        sf).fees.non_vote_fees.length
      = sf.fees.non_vote_fees.length
          + (rest.filter (fun τ => !τ.is_vote)).length
    ∧ (rest.foldl (fun sf τ => sf.addTxn τ.accounts τ.fee τ.is_vote)
        sf).fees.vote_fees.length
      = sf.fees.vote_fees.length
          + (rest.filter (fun τ => τ.is_vote)).length := by
  induction rest generalizing sf with
  | nil => simp
  | cons τ rs ih =>
      obtain ⟨ih1, ih2⟩ := ih (sf.addTxn τ.accounts τ.fee τ.is_vote)
      have haddn : (sf.addTxn τ.accounts τ.fee τ.is_vote).fees
          = sf.fees.add_fee (τ.fee : ℚ) τ.is_vote := rfl
      constructor
      · rw [List.foldl_cons, ih1, haddn]
        cases hv : τ.is_vote
        all_goals simp [Fees.add_fee, List.filter_cons, hv]
        all_goals omega
      · rw [List.foldl_cons, ih2, haddn]
        cases hv : τ.is_vote
        all_goals simp [Fees.add_fee, List.filter_cons, hv]
        all_goals omega

theorem buildRecord_non_vote (slot : Slot) (τ0 : Txn) (rest : List Txn) :
    (buildRecord slot τ0 rest).fees.non_vote_fees.length
      = ((τ0 :: rest).filter (fun τ => !τ.is_vote)).length := by
  rw [buildRecord,
    (foldAdd_fees rest
      (SlotPriorityFees.new slot τ0.accounts τ0.fee τ0.is_vote)).1]
  cases hv : τ0.is_vote
  all_goals simp [SlotPriorityFees.new, Fees.new, List.filter_cons, hv]
  all_goals omega

theorem buildRecord_vote (slot : Slot) (τ0 : Txn) (rest : List Txn) :
    (buildRecord slot τ0 rest).fees.vote_fees.length
      = ((τ0 :: rest).filter (fun τ => τ.is_vote)).length := by
  rw [buildRecord,
    (foldAdd_fees rest
      (SlotPriorityFees.new slot τ0.accounts τ0.fee τ0.is_vote)).2]
  cases hv : τ0.is_vote
  all_goals simp [SlotPriorityFees.new, Fees.new, List.filter_cons, hv]
  all_goals omega

/-- C7: corrected form. Every slot record still in the ledger is built from
a nonempty history `τ0 :: rest` of ingested transactions for that slot
(those since the record was last created): the global vote and non-vote
fee sequences hold exactly one entry per transaction of the history,
split by `is_vote`; `account_fees[a]` holds one entry for the creating
transaction if it listed `a` at all (the overwriting insert of
`SlotPriorityFees::new` collapses duplicates), plus one entry per
OCCURRENCE of `a` in each later transaction's account list — not one
entry per transaction, as a transaction may list an account twice. -/
theorem c7_record_contents (cap : Nat) (ts : List Txn) (slot : Slot)
    (sf : SlotPriorityFees)
    (h : (runTracker cap ts).priority_fees.lookup slot = some sf) :
    ∃ τ0 rest, (runGhost cap ts).2.lookup slot = some (τ0 :: rest)
      ∧ (∀ τ ∈ τ0 :: rest, τ.slot = slot)
      ∧ sf.fees.non_vote_fees.length
          = ((τ0 :: rest).filter (fun τ => !τ.is_vote)).length
      ∧ sf.fees.vote_fees.length
          = ((τ0 :: rest).filter (fun τ => τ.is_vote)).length
      ∧ ∀ a, feeEntryCount sf a
          = (if a ∈ τ0.accounts then 1 else 0)
              + (rest.map (fun τ => τ.accounts.count a)).sum := by
  obtain ⟨hc, hl, hnd, hne⟩ := runGhost_ok cap ts
  rw [hl, absLedger_lookup] at h
  rcases hg : (runGhost cap ts).2.lookup slot with _ | hist
  · rw [hg] at h
    cases h
  · rw [hg] at h
    rcases hist with _ | ⟨τ0, rest⟩
    · exact absurd rfl (hne _ (lookup_mem hg))
    · have hsf : sf = buildRecord slot τ0 rest := by
        have h2 : absVal slot (τ0 :: rest) = sf := by simpa using h
        exact h2.symm
      subst hsf
      refine ⟨τ0, rest, rfl, ?_, buildRecord_non_vote slot τ0 rest,
        buildRecord_vote slot τ0 rest,
        fun a => buildRecord_feeEntryCount slot τ0 rest a⟩
      intro τ hτ
      exact runGhost_slots cap ts (slot, τ0 :: rest) (lookup_mem hg) τ hτ

/-- Events refuting the claim as stated: in slot 1, a first transaction
lists account 0 once, a second lists account 0 twice. The claim predicts
two entries for account 0 (one per transaction that listed it); the code
stores three. -/
def c7_txns : List Txn :=
  [⟨1, [0], 1, false⟩, ⟨1, [0, 0], 2, false⟩]

/-- C7 counterexample: after `c7_txns`, the slot-1 record holds three fee
entries for account 0, not the two the claim predicts. -/
theorem c7_counterexample :
    ((runTracker 10 c7_txns).priority_fees.lookup 1).map
        (fun sf => feeEntryCount sf 0) = some 3
    ∧ ((runTracker 10 c7_txns).priority_fees.lookup 1).map
        (fun sf => feeEntryCount sf 0) ≠ some 2 :=
  ⟨by decide, by decide⟩

/-- The slot-1 record produced by `c7_txns`. -/
def c7_sf : SlotPriorityFees :=
  ⟨1, ⟨[1, 2], []⟩, [(0, ⟨[1, 2, 2], []⟩)]⟩

/-- Witness: `c7_record_contents` applied to the concrete run `c7_txns`. -/
theorem c7_record_contents_witness :
    ∃ τ0 rest, (runGhost 10 c7_txns).2.lookup 1 = some (τ0 :: rest)
      ∧ (∀ τ ∈ τ0 :: rest, τ.slot = 1)
      ∧ c7_sf.fees.non_vote_fees.length
          = ((τ0 :: rest).filter (fun τ => !τ.is_vote)).length
      ∧ c7_sf.fees.vote_fees.length
          = ((τ0 :: rest).filter (fun τ => τ.is_vote)).length
      ∧ ∀ a, feeEntryCount c7_sf a
          = (if a ∈ τ0.accounts then 1 else 0)
              + (rest.map (fun τ => τ.accounts.count a)).sum :=
  c7_record_contents 10 c7_txns 1 c7_sf (by decide)

end AtlasFee
